import Mathlib

/-!
Verification of borshfile: length-prefixed byte slices, plain and zstd-compressed.

A shallow embedding of `borshfile.go`.  Go values are modelled as follows.

* a `byte` is a `Fin 256`; a `uint32` is a `Nat` reduced `% 2 ^ 32` wherever Go converts;
* a `[]byte` that may be `nil` is an `Option (List Byte)`;
* an `error` is an `Option Error` (`none` is Go's `nil`);
* the `io.Writer` behind `BorshFile.file` is the stream of bytes it has accepted, together with
  an optional fault; the `io.Reader` is the stream of bytes still unread, together with the error
  it reports once they are exhausted;
* `WriteBorshSlice` is written once over any sink (`WriteBorshSliceWith`), and the method of
  `BorshFile` is that function at the byte-stream sink; the readers are likewise given over any
  `io.ReadFull` (`ReadUint32With`, `ReadBorshSliceWith`);
* the two package-level zstd pools are explicit state.
-/

namespace Borshfile

/-! ## Data model -/

/-- A Go `byte`. -/
abbrev Byte := Fin 256

/-- A Go `[]byte` result: `none` is the `nil` slice. -/
abbrev Slice := Option (List Byte)

/-- The bytes of a slice; the `nil` slice has none. -/
def Slice.bytes : Slice → List Byte
  | none => []
  | some bs => bs

/-- The `error` values that reach the callers of this package. -/
inductive Error where
  /-- The value `io.EOF`. -/
  | EOF
  /-- The value `io.ErrUnexpectedEOF`. -/
  | ErrUnexpectedEOF
  /-- The value `fmt.Errorf("expected 4 bytes, got %v", n)`. -/
  | Expected4 (got : Nat)
  /-- The value `fmt.Errorf("expected %v bytes, got %v bytes", contentLength, readLength)`. -/
  | ExpectedBytes (want got : Nat)
  /-- Any other error of a collaborator (sink fault, pool failure, codec rejection). -/
  | Other (code : Nat)
  deriving DecidableEq, Repr

/-- The conversion `byte(x)` of an unsigned integer: the low eight bits. -/
def byte (x : Nat) : Byte := ⟨x % 256, Nat.mod_lt x (by decide)⟩

/-- The conversion `uint32(x)` of a non-negative integer: the low 32 bits. -/
def uint32 (x : Nat) : Nat := x % 2 ^ 32

/-- The shift `x << k` on `uint32`. -/
def shl32 (x k : Nat) : Nat := uint32 (x <<< k)

/-- The two implementations of `binary.ByteOrder` in `encoding/binary`. -/
inductive ByteOrder where
  | LittleEndian
  | BigEndian
  deriving DecidableEq, Repr

/-- The method `order.PutUint32(buf, v)` on a four-byte `buf`: every byte of `buf` is
overwritten, so the result is the new content of `buf`. -/
def ByteOrder.PutUint32 : ByteOrder → Nat → List Byte
  | .LittleEndian, v => [byte v, byte (v >>> 8), byte (v >>> 16), byte (v >>> 24)]
  | .BigEndian, v => [byte (v >>> 24), byte (v >>> 16), byte (v >>> 8), byte v]

/-- The method `order.Uint32(b)`; Go panics on a `b` shorter than four bytes, which the callers
here never pass (the model then yields `0`). -/
def ByteOrder.Uint32 : ByteOrder → List Byte → Nat
  | .LittleEndian, b0 :: b1 :: b2 :: b3 :: _ =>
      b0.val ||| shl32 b1.val 8 ||| shl32 b2.val 16 ||| shl32 b3.val 24
  | .BigEndian, b0 :: b1 :: b2 :: b3 :: _ =>
      b3.val ||| shl32 b2.val 8 ||| shl32 b1.val 16 ||| shl32 b0.val 24
  | _, _ => 0

/-! ## Collaborators: sink, source, pool, codec -/

/-- An `io.Writer` (the `*os.File` of a `BorshFile`): `out` is every byte it has accepted;
`fault = none` is a fault-free sink, `fault = some (k, e)` one that accepts `k` more bytes and
fails every write that needs more with `e`.  Such a fault is permanent and a write of no byte
never fails; what must hold of every sink is stated over `WriteBorshSliceWith`, where the
sink and its `Write` are arbitrary. -/
structure Writer where
  out : List Byte
  fault : Option (Nat × Error)
  deriving DecidableEq, Repr

/-- The method `w.Write(p)`: the count of bytes accepted, the error, and the sink afterwards. -/
def Writer.Write (w : Writer) (p : List Byte) : (Nat × Option Error) × Writer :=
  match w.fault with
  | none => ((p.length, none), { w with out := w.out ++ p })
  | some (k, e) =>
    if p.length ≤ k then
      ((p.length, none), { out := w.out ++ p, fault := some (k - p.length, e) })
    else
      ((k, some e), { out := w.out ++ p.take k, fault := some (0, e) })

/-- An `io.Reader`: `data` is the bytes not yet consumed, `tail` the error `Read` reports when
none is left (`io.EOF` for a source that simply ends). -/
structure Reader where
  data : List Byte
  tail : Error
  deriving DecidableEq, Repr

/-- An in-memory or on-disk source holding exactly `bs`, ending with `io.EOF`. -/
def Reader.ofBytes (bs : List Byte) : Reader := { data := bs, tail := .EOF }

/-- The function `io.ReadFull(r, buf)` for a buffer of `len` bytes, i.e.
`io.ReadAtLeast(r, buf, len(buf))`: the count read, the buffer afterwards, the error, and the
source afterwards.  With `len` bytes available they are read and the error is `nil` (no `Read`
is issued at all for `len = 0`).  Otherwise everything left is consumed, the next `Read`
reports `r.tail`, and `io.EOF` is turned into `io.ErrUnexpectedEOF` only if at least one byte
had been read. -/
def ReadFull (r : Reader) (len : Nat) : (Nat × List Byte × Option Error) × Reader :=
  if len ≤ r.data.length then
    ((len, r.data.take len, none), { r with data := r.data.drop len })
  else
    let n := r.data.length
    let err := if 0 < n ∧ r.tail = .EOF then Error.ErrUnexpectedEOF else r.tail
    ((n, r.data ++ List.replicate (len - n) 0, some err), { r with data := [] })

/-- A pool of `github.com/mostynb/zstdpool-freelist` (`zstdEncoderPool`, `zstdDecoderPool`):
`idle` are the instances the pool holds, `fresh` names the next instance it would construct,
and `getErr` is the error of `Get` when it cannot hand out an instance. -/
structure Pool where
  idle : List Nat
  fresh : Nat
  getErr : Option Error
  deriving DecidableEq, Repr

/-- The method `pool.Get(nil)`: an idle instance if there is one, else a new one. -/
def Pool.Get (p : Pool) : Except Error Nat × Pool :=
  match p.getErr with
  | some e => (.error e, p)
  | none =>
    match p.idle with
    | d :: rest => (.ok d, { p with idle := rest })
    | [] => (.ok p.fresh, { p with fresh := p.fresh + 1 })

/-- The method `pool.Put(d)`. -/
def Pool.Put (p : Pool) (d : Nat) : Pool := { p with idle := d :: p.idle }

/-- The zstd capability: `enc.EncodeAll(src, nil)` and `dec.DecodeAll(input, nil)`. -/
structure Codec where
  EncodeAll : List Byte → List Byte
  DecodeAll : List Byte → Slice × Option Error

/-! ## The functions of `borshfile.go` -/

/-- The type `BorshFile`. -/
structure BorshFile where
  file : Writer
  deriving DecidableEq, Repr

/-- The function `WriteUint32(writer, i, order)`. -/
def WriteUint32 (writer : Writer) (i : Nat) (order : ByteOrder) : Option Error × Writer :=
  let buf := order.PutUint32 i
  let (res, writer1) := writer.Write buf
  (res.2, writer1)

/-- The function `WriteUint32LE(writer, i)`. -/
def WriteUint32LE (writer : Writer) (i : Nat) : Option Error × Writer :=
  WriteUint32 writer i .LittleEndian

/-- The function `ReadUint32(reader, order)`. -/
def ReadUint32 (reader : Reader) (order : ByteOrder) : (Nat × Option Error) × Reader :=
  let ((n, buf, err), reader1) := ReadFull reader 4
  match err with
  | some e => ((0, some e), reader1)
  | none =>
    if n ≠ 4 then ((0, some (.Expected4 n)), reader1)
    else ((order.Uint32 buf, none), reader1)

/-- The function `ReadUint32LE(reader)`. -/
def ReadUint32LE (reader : Reader) : (Nat × Option Error) × Reader :=
  ReadUint32 reader .LittleEndian

/-- The method `bf.WriteBytes(buf)`. -/
def BorshFile.WriteBytes (bf : BorshFile) (buf : List Byte) : (Nat × Option Error) × BorshFile :=
  let (res, file1) := bf.file.Write buf
  (res, { file := file1 })

/-- The function `WriteUint32(writer, i, order)` over any kind of sink, with the sink's
`Write` as the parameter `write`. -/
def WriteUint32With {σ : Type} (write : σ → List Byte → (Nat × Option Error) × σ)
    (writer : σ) (i : Nat) (order : ByteOrder) : Option Error × σ :=
  let buf := order.PutUint32 i
  let (res, writer1) := write writer buf
  (res.2, writer1)

/-- The function `WriteUint32LE(writer, i)` over any kind of sink. -/
def WriteUint32LEWith {σ : Type} (write : σ → List Byte → (Nat × Option Error) × σ)
    (writer : σ) (i : Nat) : Option Error × σ :=
  WriteUint32With write writer i .LittleEndian

/-- The method `bf.WriteBytes(buf)` over any kind of sink: `bf.file.Write(buf)`. -/
def WriteBytesWith {σ : Type} (write : σ → List Byte → (Nat × Option Error) × σ)
    (file : σ) (buf : List Byte) : (Nat × Option Error) × σ :=
  write file buf

/-- The method `bf.WriteBorshSlice(buf)` over any kind of sink, with the `Write` of `bf.file`
as the parameter `write` and the sink `bf.file` as `file`: the sink that comes back is the
sink as the writes that were made left it. -/
def WriteBorshSliceWith {σ : Type} (write : σ → List Byte → (Nat × Option Error) × σ)
    (file : σ) (buf : List Byte) : (Nat × Option Error) × σ :=
  match WriteUint32LEWith write file (uint32 buf.length) with
  | (some err, file1) => ((0, some err), file1)
  | (none, file1) =>
    match WriteBytesWith write file1 buf with
    | ((_, some err), file2) => ((0, some err), file2)
    | ((n, none), file2) => ((n + 4, none), file2)

/-- The method `bf.WriteBorshSlice(buf)` of a `BorshFile` on the byte-stream sink:
`WriteBorshSliceWith` at `bf.file` and its `Write`. -/
def BorshFile.WriteBorshSlice (bf : BorshFile) (buf : List Byte) :
    (Nat × Option Error) × BorshFile :=
  let (res, file1) := WriteBorshSliceWith Writer.Write bf.file buf
  (res, { file := file1 })

/-- The method `bf.WriteZSTDByteSlice(buf)` with `zstdEncoderPool` as explicit state; the
deferred `Put` runs on both returns that follow it. -/
def BorshFile.WriteZSTDByteSlice (c : Codec) (bf : BorshFile) (pool : Pool) (buf : List Byte) :
    (Nat × Option Error) × BorshFile × Pool :=
  match pool.Get with
  | (.error err, pool1) => ((0, some err), bf, pool1)
  | (.ok enc, pool1) =>
    let encoded := c.EncodeAll buf
    let (res, bf1) := bf.WriteBorshSlice encoded
    (res, bf1, pool1.Put enc)

/-- The function `ReadBorshSlice(reader)`; `int(contentLength)` is `contentLength` itself for
an `int` of 64 bits. -/
def ReadBorshSlice (reader : Reader) : (Slice × Nat × Option Error) × Reader :=
  match ReadUint32LE reader with
  | ((contentLength, some err), reader1) => ((none, contentLength, some err), reader1)
  | ((contentLength, none), reader1) =>
    let ((readLength, contentBuffer, err), reader2) := ReadFull reader1 contentLength
    match err with
    | some e => ((none, 0, some e), reader2)
    | none =>
      if readLength ≠ contentLength then
        ((none, 0, some (.ExpectedBytes contentLength readLength)), reader2)
      else ((some contentBuffer, contentLength, none), reader2)

/-- The function `ReadZSTDBorshSlice(reader)` with `zstdDecoderPool` as explicit state. -/
def ReadZSTDBorshSlice (c : Codec) (reader : Reader) (pool : Pool) :
    (Slice × Nat × Option Error) × Reader × Pool :=
  match ReadBorshSlice reader with
  | ((_, _, some err), reader1) => ((none, 0, some err), reader1, pool)
  | ((contentBuffer, contentLength, none), reader1) =>
    match pool.Get with
    | (.error err, pool1) => ((none, 0, some err), reader1, pool1)
    | (.ok dec, pool1) =>
      match c.DecodeAll contentBuffer.bytes with
      | (_, some err) => ((none, 0, some err), reader1, pool1)
      | (decodable, none) => ((decodable, contentLength, none), reader1, pool1.Put dec)

/-! ## Sample collaborators used by the concrete checks -/

/-- A toy codec: a frame is the byte `0x28` followed by the payload; anything else is
rejected with a codec error. -/
def tagCodec : Codec where
  EncodeAll := fun b => (0x28 : Byte) :: b
  DecodeAll := fun input =>
    match input with
    | t :: rest => if t = (0x28 : Byte) then (some rest, none) else (none, some (.Other 1))
    | [] => (none, some (.Other 1))

/-- A pool holding no idle instance whose `Get` succeeds. -/
def emptyPool : Pool := { idle := [], fresh := 0, getErr := none }

/-- A sink that records its calls: it behaves as `write` does and appends the buffer of every
`Write` it receives to a log. -/
def recordWrites {σ : Type} (write : σ → List Byte → (Nat × Option Error) × σ) :
    σ × List (List Byte) → List Byte → (Nat × Option Error) × (σ × List (List Byte))
  | (s, log), p => ((write s p).1, ((write s p).2, log ++ [p]))

/-- A sink whose fault is not permanent: while `armed` its `Write` fails with `e` and accepts
no byte, and every later `Write` succeeds. -/
def failOnce (e : Error) :
    List Byte × Bool → List Byte → (Nat × Option Error) × (List Byte × Bool)
  | (out, true), _ => ((0, some e), (out, false))
  | (out, false), p => ((p.length, none), (out ++ p, false))

/-! ## Sequences of calls, and the readers over any source -/

/-- The bytes of one frame per payload, in order: the little-endian header for
`uint32(len b)` followed by `b`. -/
def frames : List (List Byte) → List Byte
  | [] => []
  | b :: bs => ByteOrder.LittleEndian.PutUint32 (uint32 b.length) ++ b ++ frames bs

/-- A caller that invokes `bf.WriteBorshSlice` on each payload in turn and keeps the file. -/
def writeSlices (bf : BorshFile) : List (List Byte) → BorshFile
  | [] => bf
  | b :: bs => writeSlices (bf.WriteBorshSlice b).2 bs

/-- A caller that invokes `ReadBorshSlice` `n` times on one source: the results in call
order, and the source afterwards. -/
def readSlices : Nat → Reader → List (Slice × Nat × Option Error) × Reader
  | 0, r => ([], r)
  | n + 1, r =>
    let (res, r1) := ReadBorshSlice r
    let (rest, r2) := readSlices n r1
    (res :: rest, r2)

/-- The function `ReadUint32(reader, order)` over any kind of source, with `io.ReadFull` on
that source as the parameter `readFull`. -/
def ReadUint32With {σ : Type} (readFull : σ → Nat → (Nat × List Byte × Option Error) × σ)
    (reader : σ) (order : ByteOrder) : (Nat × Option Error) × σ :=
  let ((n, buf, err), reader1) := readFull reader 4
  match err with
  | some e => ((0, some e), reader1)
  | none =>
    if n ≠ 4 then ((0, some (.Expected4 n)), reader1)
    else ((order.Uint32 buf, none), reader1)

/-- The function `ReadBorshSlice(reader)` over any kind of source, with `io.ReadFull` on that
source as the parameter `readFull`. -/
def ReadBorshSliceWith {σ : Type} (readFull : σ → Nat → (Nat × List Byte × Option Error) × σ)
    (reader : σ) : (Slice × Nat × Option Error) × σ :=
  match ReadUint32With readFull reader .LittleEndian with
  | ((contentLength, some err), reader1) => ((none, contentLength, some err), reader1)
  | ((contentLength, none), reader1) =>
    let ((readLength, contentBuffer, err), reader2) := readFull reader1 contentLength
    match err with
    | some e => ((none, 0, some e), reader2)
    | none =>
      if readLength ≠ contentLength then
        ((none, 0, some (.ExpectedBytes contentLength readLength)), reader2)
      else ((some contentBuffer, contentLength, none), reader2)

/-! ## Arithmetic of the four-byte integer codec -/

theorem or_mul_pow (a b k : Nat) (h : a < 2 ^ k) : a ||| b * 2 ^ k = a + b * 2 ^ k := by
  rw [Nat.or_comm, Nat.mul_comm, ← Nat.mul_add_lt_is_or h]
  omega

theorem shl32_byte (x k : Nat) (hx : x < 256) (hk : k ≤ 24) : shl32 x k = x * 2 ^ k := by
  unfold shl32 uint32
  rw [Nat.shiftLeft_eq]
  apply Nat.mod_eq_of_lt
  calc x * 2 ^ k < 256 * 2 ^ k := Nat.mul_lt_mul_of_pos_right hx (Nat.two_pow_pos k)
    _ ≤ 256 * 2 ^ 24 := Nat.mul_le_mul_left _ (Nat.pow_le_pow_right (by decide) hk)
    _ = 2 ^ 32 := by norm_num

theorem compose4 (x0 x1 x2 x3 : Nat) (h0 : x0 < 256) (h1 : x1 < 256) (h2 : x2 < 256)
    (h3 : x3 < 256) :
    x0 ||| shl32 x1 8 ||| shl32 x2 16 ||| shl32 x3 24
      = x0 + x1 * 256 + x2 * 65536 + x3 * 16777216 := by
  rw [shl32_byte x1 8 h1 (by decide), shl32_byte x2 16 h2 (by decide),
    shl32_byte x3 24 h3 (by decide)]
  rw [or_mul_pow x0 x1 8 (by omega), or_mul_pow _ x2 16 (by omega),
    or_mul_pow _ x3 24 (by omega)]
  norm_num

theorem Uint32_lt (o : ByteOrder) (bs : List Byte) : o.Uint32 bs < 2 ^ 32 := by
  match o, bs with
  | .LittleEndian, b0 :: b1 :: b2 :: b3 :: _ =>
    simp only [ByteOrder.Uint32]
    rw [compose4 _ _ _ _ b0.isLt b1.isLt b2.isLt b3.isLt]
    have := b0.isLt; have := b1.isLt; have := b2.isLt; have := b3.isLt
    omega
  | .BigEndian, b0 :: b1 :: b2 :: b3 :: _ =>
    simp only [ByteOrder.Uint32]
    rw [compose4 _ _ _ _ b3.isLt b2.isLt b1.isLt b0.isLt]
    have := b0.isLt; have := b1.isLt; have := b2.isLt; have := b3.isLt
    omega
  | _, [] => simp [ByteOrder.Uint32]
  | _, [_] => simp [ByteOrder.Uint32]
  | _, [_, _] => simp [ByteOrder.Uint32]
  | _, [_, _, _] => simp [ByteOrder.Uint32]

theorem Uint32_PutUint32 (o : ByteOrder) (v : Nat) : o.Uint32 (o.PutUint32 v) = uint32 v := by
  cases o <;>
  · simp only [ByteOrder.PutUint32, ByteOrder.Uint32, byte]
    rw [compose4 _ _ _ _ (Nat.mod_lt _ (by decide)) (Nat.mod_lt _ (by decide))
      (Nat.mod_lt _ (by decide)) (Nat.mod_lt _ (by decide))]
    simp only [Nat.shiftRight_eq_div_pow, uint32]
    omega

/-! ## Stepping the collaborators and the readers -/

theorem PutUint32_length (o : ByteOrder) (v : Nat) : (o.PutUint32 v).length = 4 := by
  cases o <;> rfl

theorem ReadFull_of_le (r : Reader) (len : Nat) (h : len ≤ r.data.length) :
    ReadFull r len = ((len, r.data.take len, none), { data := r.data.drop len, tail := r.tail }) := by
  simp [ReadFull, h]

theorem ReadFull_of_lt (r : Reader) (len : Nat) (h : r.data.length < len) :
    ReadFull r len =
      ((r.data.length, r.data ++ List.replicate (len - r.data.length) 0,
        some (if 0 < r.data.length ∧ r.tail = .EOF then Error.ErrUnexpectedEOF else r.tail)),
       { data := [], tail := r.tail }) := by
  simp [ReadFull, Nat.not_le.mpr h]

theorem ReadUint32_cons4 (o : ByteOrder) (b0 b1 b2 b3 : Byte) (rest : List Byte) (t : Error) :
    ReadUint32 { data := b0 :: b1 :: b2 :: b3 :: rest, tail := t } o
      = ((o.Uint32 [b0, b1, b2, b3], none), { data := rest, tail := t }) := by
  cases o <;> simp [ReadUint32, ReadFull, ByteOrder.Uint32]

theorem ReadUint32_short (o : ByteOrder) (bs : List Byte) (t : Error) (h : bs.length < 4) :
    ReadUint32 { data := bs, tail := t } o
      = ((0, some (if 0 < bs.length ∧ t = .EOF then Error.ErrUnexpectedEOF else t)),
         { data := [], tail := t }) := by
  simp [ReadUint32, ReadFull, Nat.not_le.mpr h]

theorem ReadBorshSlice_cons4 (b0 b1 b2 b3 : Byte) (rest : List Byte) (t : Error)
    (h : ByteOrder.LittleEndian.Uint32 [b0, b1, b2, b3] ≤ rest.length) :
    ReadBorshSlice { data := b0 :: b1 :: b2 :: b3 :: rest, tail := t }
      = ((some (rest.take (ByteOrder.LittleEndian.Uint32 [b0, b1, b2, b3])),
          ByteOrder.LittleEndian.Uint32 [b0, b1, b2, b3], none),
         { data := rest.drop (ByteOrder.LittleEndian.Uint32 [b0, b1, b2, b3]), tail := t }) := by
  simp only [ReadBorshSlice, ReadUint32LE, ReadUint32_cons4]
  rw [ReadFull_of_le _ _ h]
  simp

theorem ReadBorshSlice_cons4_short (b0 b1 b2 b3 : Byte) (rest : List Byte) (t : Error)
    (h : rest.length < ByteOrder.LittleEndian.Uint32 [b0, b1, b2, b3]) :
    ReadBorshSlice { data := b0 :: b1 :: b2 :: b3 :: rest, tail := t }
      = ((none, 0,
          some (if 0 < rest.length ∧ t = .EOF then Error.ErrUnexpectedEOF else t)),
         { data := [], tail := t }) := by
  simp only [ReadBorshSlice, ReadUint32LE, ReadUint32_cons4]
  rw [ReadFull_of_lt _ _ h]

theorem ReadBorshSlice_short (bs : List Byte) (t : Error) (h : bs.length < 4) :
    ReadBorshSlice { data := bs, tail := t }
      = ((none, 0, some (if 0 < bs.length ∧ t = .EOF then Error.ErrUnexpectedEOF else t)),
         { data := [], tail := t }) := by
  simp only [ReadBorshSlice, ReadUint32LE, ReadUint32_short _ _ _ h]

theorem Write_ok (out p : List Byte) :
    Writer.Write { out := out, fault := none } p
      = ((p.length, none), { out := out ++ p, fault := none }) := rfl

theorem WriteUint32_ok (out : List Byte) (i : Nat) (o : ByteOrder) :
    WriteUint32 { out := out, fault := none } i o
      = (none, { out := out ++ o.PutUint32 i, fault := none }) := rfl

theorem WriteBorshSlice_ok (out buf : List Byte) :
    BorshFile.WriteBorshSlice { file := { out := out, fault := none } } buf
      = ((buf.length + 4, none),
         { file := { out := out ++ ByteOrder.LittleEndian.PutUint32 (uint32 buf.length) ++ buf,
                     fault := none } }) := rfl

theorem ReadBorshSlice_frame (v : Nat) (body : List Byte) (t : Error) (h : uint32 v ≤ body.length) :
    ReadBorshSlice { data := ByteOrder.LittleEndian.PutUint32 v ++ body, tail := t }
      = ((some (body.take (uint32 v)), uint32 v, none),
         { data := body.drop (uint32 v), tail := t }) := by
  have hv := Uint32_PutUint32 .LittleEndian v
  simp only [ByteOrder.PutUint32] at hv
  simp only [ByteOrder.PutUint32, List.cons_append, List.nil_append]
  rw [ReadBorshSlice_cons4 _ _ _ _ _ _ (by rw [hv]; exact h), hv]

theorem Pool.Get_of_getErr_none (p : Pool) (h : p.getErr = none) :
    ∃ d p1, p.Get = (.ok d, p1) := by
  unfold Pool.Get
  rw [h]
  cases p.idle with
  | nil => exact ⟨_, _, rfl⟩
  | cons d rest => exact ⟨_, _, rfl⟩

theorem WriteZSTDByteSlice_of_Get (c : Codec) (bf : BorshFile) (pool pool1 : Pool) (enc : Nat)
    (buf : List Byte) (h : pool.Get = (.ok enc, pool1)) :
    BorshFile.WriteZSTDByteSlice c bf pool buf
      = ((bf.WriteBorshSlice (c.EncodeAll buf)).1, (bf.WriteBorshSlice (c.EncodeAll buf)).2,
         pool1.Put enc) := by
  simp [BorshFile.WriteZSTDByteSlice, h]

/-- Reading back what `WriteBorshSlice` appended to a fault-free sink, for a payload whose
length fits the header. -/
theorem ReadBorshSlice_written (out b : List Byte) (h : b.length < 2 ^ 32) :
    ReadBorshSlice (Reader.ofBytes
        ((BorshFile.WriteBorshSlice { file := { out := out, fault := none } } b).2.file.out.drop
          out.length))
      = ((some b, b.length, none), Reader.ofBytes []) := by
  have hu : uint32 b.length = b.length := Nat.mod_eq_of_lt h
  rw [WriteBorshSlice_ok]
  simp only [Reader.ofBytes, List.append_assoc, List.drop_left]
  rw [hu, ReadBorshSlice_frame b.length b _ (by rw [hu]), hu]
  simp

/-! ## Claims -/

/-- C1 (as stated, refuted): for the payload of `2 ^ 32` zero bytes the header written by
`WriteBorshSlice` declares length `0`, so `ReadBorshSlice` on the written bytes returns an empty
frame of length `0` and not the payload with its length. -/
theorem C1_counterexample_oversized :
    (ReadBorshSlice (Reader.ofBytes
        (BorshFile.WriteBorshSlice { file := { out := [], fault := none } }
          (List.replicate (2 ^ 32) (0 : Byte))).2.file.out)).1 = (some [], 0, none)
    ∧ ((some [], 0, none) : Slice × Nat × Option Error)
        ≠ (some (List.replicate (2 ^ 32) (0 : Byte)),
            (List.replicate (2 ^ 32) (0 : Byte)).length, none) := by
  have hu : uint32 (List.replicate (2 ^ 32) (0 : Byte)).length = 0 := by
    rw [List.length_replicate]; exact Nat.mod_self _
  have hu0 : uint32 0 = 0 := rfl
  constructor
  · rw [WriteBorshSlice_ok, hu]
    simp only [Reader.ofBytes, List.nil_append]
    rw [ReadBorshSlice_frame 0 _ _ (by rw [hu0]; exact Nat.zero_le _), hu0]
    simp only [List.take_zero]
  · intro h
    have h2 := congrArg (fun x => x.2.1) h
    simp only [List.length_replicate] at h2
    exact absurd h2 (by norm_num)

/-- C1 (amended): for every byte sequence `b` shorter than `2 ^ 32` bytes (the empty one
included), `ReadBorshSlice` applied to the bytes that `WriteBorshSlice b` wrote to a fault-free
sink returns `(b, len b)` with no error, and consumes all of them. -/
theorem C1_roundtrip_plain (out b : List Byte) (h : b.length < 2 ^ 32) :
    ReadBorshSlice (Reader.ofBytes
        ((BorshFile.WriteBorshSlice { file := { out := out, fault := none } } b).2.file.out.drop
          out.length))
      = ((some b, b.length, none), Reader.ofBytes []) :=
  ReadBorshSlice_written out b h

/-- C1 (amended), at the payload `5, 6, 7` written after one earlier byte. -/
theorem C1_roundtrip_plain_witness :
    ([5, 6, 7] : List Byte).length < 2 ^ 32
    ∧ ReadBorshSlice (Reader.ofBytes
        ((BorshFile.WriteBorshSlice { file := { out := [9], fault := none } }
          [5, 6, 7]).2.file.out.drop ([9] : List Byte).length))
      = ((some [5, 6, 7], ([5, 6, 7] : List Byte).length, none), Reader.ofBytes []) :=
  ⟨by decide, C1_roundtrip_plain [9] [5, 6, 7] (by decide)⟩

/-- C2 (as stated, refuted): a header declaring one content byte followed by no content byte
at all makes `ReadBorshSlice` fail with `io.EOF`, the clean end-of-stream error, and not with
`io.ErrUnexpectedEOF`. -/
theorem C2_counterexample_no_content :
    ByteOrder.LittleEndian.PutUint32 1 = [1, 0, 0, 0]
    ∧ ReadBorshSlice (Reader.ofBytes (ByteOrder.LittleEndian.PutUint32 1 ++ []))
        = ((none, 0, some Error.EOF), Reader.ofBytes [])
    ∧ (some Error.EOF : Option Error) ≠ some Error.ErrUnexpectedEOF := by
  decide

/-- C2 (amended): for every declared length `L < 2 ^ 32` (necessarily positive) and every source made of the
four-byte little-endian header for `L` followed by fewer than `L` content bytes,
`ReadBorshSlice` fails and returns nil content and length `0`, never partial content; the error
is `io.ErrUnexpectedEOF` when at least one content byte is present and `io.EOF` when none is. -/
theorem C2_truncated_content (L : Nat) (content : List Byte) (hL : L < 2 ^ 32)
    (hshort : content.length < L) :
    ReadBorshSlice (Reader.ofBytes (ByteOrder.LittleEndian.PutUint32 L ++ content))
      = ((none, 0, some (if 0 < content.length then Error.ErrUnexpectedEOF else Error.EOF)),
         Reader.ofBytes [])
    ∧ Error.ErrUnexpectedEOF ≠ Error.EOF := by
  have hu : uint32 L = L := Nat.mod_eq_of_lt hL
  have hv := Uint32_PutUint32 .LittleEndian L
  rw [hu] at hv
  simp only [ByteOrder.PutUint32] at hv
  refine ⟨?_, by decide⟩
  simp only [Reader.ofBytes, ByteOrder.PutUint32, List.cons_append, List.nil_append]
  rw [ReadBorshSlice_cons4_short _ _ _ _ _ _ (by rw [hv]; exact hshort)]
  simp

/-- C2 (amended), at the header for `3` followed by the two bytes `7, 8`. -/
theorem C2_truncated_content_witness :
    (3 < 2 ^ 32 ∧ ([7, 8] : List Byte).length < 3)
    ∧ (ReadBorshSlice (Reader.ofBytes (ByteOrder.LittleEndian.PutUint32 3 ++ [7, 8]))
        = ((none, 0,
            some (if 0 < ([7, 8] : List Byte).length then Error.ErrUnexpectedEOF
              else Error.EOF)),
           Reader.ofBytes [])
      ∧ Error.ErrUnexpectedEOF ≠ Error.EOF) :=
  ⟨by decide, C2_truncated_content 3 [7, 8] (by decide) (by decide)⟩

/-- C3: with a codec that decodes its own encoding of `b`, pools whose `Get` succeeds, a
fault-free sink and a compressed form shorter than `2 ^ 32` bytes, `ReadZSTDBorshSlice` on the
bytes written by `WriteZSTDByteSlice b` returns the bytes of `b` with no error, and the length
it returns is `len (EncodeAll b)`, the length on disk. -/
theorem C3_roundtrip_compressed (c : Codec) (out b : List Byte) (encPool decPool : Pool)
    (hdecode : (c.DecodeAll (c.EncodeAll b)).1.bytes = b)
    (hnoerr : (c.DecodeAll (c.EncodeAll b)).2 = none)
    (henc : encPool.getErr = none) (hdec : decPool.getErr = none)
    (hlen : (c.EncodeAll b).length < 2 ^ 32) :
    (ReadZSTDBorshSlice c (Reader.ofBytes
        ((BorshFile.WriteZSTDByteSlice c { file := { out := out, fault := none } } encPool
          b).2.1.file.out.drop out.length)) decPool).1.1.bytes = b
    ∧ (ReadZSTDBorshSlice c (Reader.ofBytes
        ((BorshFile.WriteZSTDByteSlice c { file := { out := out, fault := none } } encPool
          b).2.1.file.out.drop out.length)) decPool).1.2
        = ((c.EncodeAll b).length, none) := by
  obtain ⟨enc, encPool1, hget⟩ := Pool.Get_of_getErr_none encPool henc
  obtain ⟨dec, decPool1, hget2⟩ := Pool.Get_of_getErr_none decPool hdec
  rw [WriteZSTDByteSlice_of_Get c _ _ _ _ _ hget]
  have hrt := ReadBorshSlice_written out (c.EncodeAll b) hlen
  simp only [ReadZSTDBorshSlice, hrt, hget2, Slice.bytes]
  cases hd : c.DecodeAll (c.EncodeAll b) with
  | mk s e =>
    rw [hd] at hdecode hnoerr
    simp only at hnoerr
    subst hnoerr
    simp only at hdecode ⊢
    exact ⟨hdecode, trivial⟩

/-- C3, at the payload `5, 6, 7` with the tag codec: the frame read back holds four bytes on
disk while the payload has three. -/
theorem C3_roundtrip_compressed_witness :
    ((tagCodec.DecodeAll (tagCodec.EncodeAll [5, 6, 7])).1.bytes = [5, 6, 7]
      ∧ (tagCodec.DecodeAll (tagCodec.EncodeAll [5, 6, 7])).2 = none
      ∧ emptyPool.getErr = none
      ∧ (tagCodec.EncodeAll [5, 6, 7]).length < 2 ^ 32)
    ∧ ((ReadZSTDBorshSlice tagCodec (Reader.ofBytes
          ((BorshFile.WriteZSTDByteSlice tagCodec { file := { out := [], fault := none } }
            emptyPool [5, 6, 7]).2.1.file.out.drop ([] : List Byte).length))
          emptyPool).1.1.bytes = [5, 6, 7]
      ∧ (ReadZSTDBorshSlice tagCodec (Reader.ofBytes
          ((BorshFile.WriteZSTDByteSlice tagCodec { file := { out := [], fault := none } }
            emptyPool [5, 6, 7]).2.1.file.out.drop ([] : List Byte).length))
          emptyPool).1.2 = ((tagCodec.EncodeAll [5, 6, 7]).length, none)) :=
  ⟨by decide,
   C3_roundtrip_compressed tagCodec [] [5, 6, 7] emptyPool emptyPool (by decide) (by decide)
     (by decide) (by decide) (by decide)⟩

/-- C4 (the code at the failing input): the source holds one frame whose content the decoder
rejects, the single byte `00` or the four bytes `00 00 00 00`.  `Get` hands out decoder `0`,
`DecodeAll` fails, and the pool that `ReadZSTDBorshSlice` leaves behind is the pool as it was
right after `Get`: decoder `0` is not among its idle instances, so it was never put back. -/
theorem C4_decoder_leaked_on_decode_error :
    emptyPool.Get = (.ok 0, { idle := [], fresh := 1, getErr := none })
    ∧ ReadZSTDBorshSlice tagCodec (Reader.ofBytes [1, 0, 0, 0, 0]) emptyPool
        = ((none, 0, some (Error.Other 1)), Reader.ofBytes [],
           { idle := [], fresh := 1, getErr := none })
    ∧ (ReadZSTDBorshSlice tagCodec (Reader.ofBytes [1, 0, 0, 0, 0]) emptyPool).2.2
        ≠ Pool.Put { idle := [], fresh := 1, getErr := none } 0
    ∧ ReadZSTDBorshSlice tagCodec (Reader.ofBytes [4, 0, 0, 0, 0, 0, 0, 0]) emptyPool
        = ((none, 0, some (Error.Other 1)), Reader.ofBytes [],
           { idle := [], fresh := 1, getErr := none })
    ∧ (ReadZSTDBorshSlice tagCodec (Reader.ofBytes [4, 0, 0, 0, 0, 0, 0, 0]) emptyPool).2.2
        ≠ Pool.Put { idle := [], fresh := 1, getErr := none } 0 :=
  ⟨rfl, by decide, by decide, by decide, by decide⟩

/-- C5: whenever `WriteZSTDByteSlice` has obtained encoder `enc` from the encoder pool, the
pool it leaves behind is the pool after `Get` with `enc` put back exactly once, for every
payload, every codec and every sink, faulty or not. -/
theorem C5_encoder_returned_once (c : Codec) (bf : BorshFile) (pool pool1 : Pool) (enc : Nat)
    (buf : List Byte) (hget : pool.Get = (.ok enc, pool1)) :
    (BorshFile.WriteZSTDByteSlice c bf pool buf).2.2 = pool1.Put enc
    ∧ (BorshFile.WriteZSTDByteSlice c bf pool buf).2.2.idle = enc :: pool1.idle
    ∧ (BorshFile.WriteZSTDByteSlice c bf pool buf).2.2.idle.count enc
        = pool1.idle.count enc + 1 := by
  rw [WriteZSTDByteSlice_of_Get c bf pool pool1 enc buf hget]
  simp [Pool.Put]

/-- C5, at a sink that accepts two more bytes and then fails: the write returns the sink's
error and the encoder is back in the pool. -/
theorem C5_encoder_returned_once_witness :
    emptyPool.Get = (.ok 0, { idle := [], fresh := 1, getErr := none })
    ∧ (BorshFile.WriteZSTDByteSlice tagCodec
          { file := { out := [], fault := some (2, Error.Other 7) } } emptyPool [5, 6, 7]).1
        = (0, some (Error.Other 7))
    ∧ ((BorshFile.WriteZSTDByteSlice tagCodec
          { file := { out := [], fault := some (2, Error.Other 7) } } emptyPool [5, 6, 7]).2.2
        = Pool.Put { idle := [], fresh := 1, getErr := none } 0
      ∧ (BorshFile.WriteZSTDByteSlice tagCodec
          { file := { out := [], fault := some (2, Error.Other 7) } } emptyPool
          [5, 6, 7]).2.2.idle = 0 :: ([] : List Nat)
      ∧ (BorshFile.WriteZSTDByteSlice tagCodec
          { file := { out := [], fault := some (2, Error.Other 7) } } emptyPool
          [5, 6, 7]).2.2.idle.count 0 = ([] : List Nat).count 0 + 1) :=
  ⟨rfl, by decide,
   C5_encoder_returned_once tagCodec { file := { out := [], fault := some (2, Error.Other 7) } }
     emptyPool { idle := [], fresh := 1, getErr := none } 0 [5, 6, 7] rfl⟩

/-- C6: on a fault-free sink, for every content of at most `2 ^ 32 - 1` bytes,
`WriteBorshSlice` appends the four bytes of the little-endian encoding of `len content`
followed by `content` unchanged, `4 + len content` bytes in all, returns `4 + len content`
with no error, and `ReadUint32LE` decodes the header back to exactly `len content`. -/
theorem C6_frame_layout (out content : List Byte) (h : content.length ≤ 2 ^ 32 - 1) :
    BorshFile.WriteBorshSlice { file := { out := out, fault := none } } content
      = ((4 + content.length, none),
         { file := { out := out ++ (ByteOrder.LittleEndian.PutUint32 content.length ++ content),
                     fault := none } })
    ∧ (ByteOrder.LittleEndian.PutUint32 content.length ++ content).length = 4 + content.length
    ∧ ReadUint32LE (Reader.ofBytes (ByteOrder.LittleEndian.PutUint32 content.length))
        = ((content.length, none), Reader.ofBytes []) := by
  have hlt : content.length < 2 ^ 32 := by omega
  have hu : uint32 content.length = content.length := Nat.mod_eq_of_lt hlt
  have hv := Uint32_PutUint32 .LittleEndian content.length
  rw [hu] at hv
  refine ⟨?_, ?_, ?_⟩
  · rw [WriteBorshSlice_ok, hu, List.append_assoc, Nat.add_comm]
  · rw [List.length_append, PutUint32_length]
  · simp only [ByteOrder.PutUint32] at hv
    simp only [ReadUint32LE, Reader.ofBytes, ByteOrder.PutUint32, ReadUint32_cons4, hv]

/-- C6, at the content `5, 6, 7` appended after one earlier byte. -/
theorem C6_frame_layout_witness :
    ([5, 6, 7] : List Byte).length ≤ 2 ^ 32 - 1
    ∧ (BorshFile.WriteBorshSlice { file := { out := [9], fault := none } } [5, 6, 7]
        = ((4 + ([5, 6, 7] : List Byte).length, none),
           { file := { out := [9] ++ (ByteOrder.LittleEndian.PutUint32
                         ([5, 6, 7] : List Byte).length ++ [5, 6, 7]),
                       fault := none } })
      ∧ (ByteOrder.LittleEndian.PutUint32 ([5, 6, 7] : List Byte).length ++ [5, 6, 7]).length
          = 4 + ([5, 6, 7] : List Byte).length
      ∧ ReadUint32LE (Reader.ofBytes
            (ByteOrder.LittleEndian.PutUint32 ([5, 6, 7] : List Byte).length))
          = ((([5, 6, 7] : List Byte).length, none), Reader.ofBytes [])) :=
  ⟨by decide, C6_frame_layout [9] [5, 6, 7] (by decide)⟩

/-- C7: for every source whose first four bytes decode little-endian to `L` and which holds
at least `L` further bytes, `ReadBorshSlice` returns without error the next `L` bytes as content
and `L` as the length, which is the length of the content, and consumes exactly `4 + L` bytes:
the source afterwards holds every later byte, unread. -/
theorem C7_read_frame (b0 b1 b2 b3 : Byte) (rest : List Byte) (t : Error)
    (h : ByteOrder.LittleEndian.Uint32 [b0, b1, b2, b3] ≤ rest.length) :
    ReadBorshSlice { data := b0 :: b1 :: b2 :: b3 :: rest, tail := t }
      = ((some (rest.take (ByteOrder.LittleEndian.Uint32 [b0, b1, b2, b3])),
          ByteOrder.LittleEndian.Uint32 [b0, b1, b2, b3], none),
         { data := rest.drop (ByteOrder.LittleEndian.Uint32 [b0, b1, b2, b3]), tail := t })
    ∧ (rest.take (ByteOrder.LittleEndian.Uint32 [b0, b1, b2, b3])).length
        = ByteOrder.LittleEndian.Uint32 [b0, b1, b2, b3]
    ∧ (b0 :: b1 :: b2 :: b3 :: rest).length
        = 4 + ByteOrder.LittleEndian.Uint32 [b0, b1, b2, b3]
          + (rest.drop (ByteOrder.LittleEndian.Uint32 [b0, b1, b2, b3])).length := by
  refine ⟨ReadBorshSlice_cons4 b0 b1 b2 b3 rest t h, ?_, ?_⟩
  · rw [List.length_take]; omega
  · simp only [List.length_cons, List.length_drop]; omega

/-- C7, at a source holding a two-byte frame followed by one later byte. -/
theorem C7_read_frame_witness :
    ByteOrder.LittleEndian.Uint32 [2, 0, 0, 0] ≤ ([7, 8, 9] : List Byte).length
    ∧ (ReadBorshSlice { data := 2 :: 0 :: 0 :: 0 :: [7, 8, 9], tail := Error.EOF }
        = ((some (([7, 8, 9] : List Byte).take (ByteOrder.LittleEndian.Uint32 [2, 0, 0, 0])),
            ByteOrder.LittleEndian.Uint32 [2, 0, 0, 0], none),
           { data := ([7, 8, 9] : List Byte).drop (ByteOrder.LittleEndian.Uint32 [2, 0, 0, 0]),
             tail := Error.EOF })
      ∧ (([7, 8, 9] : List Byte).take (ByteOrder.LittleEndian.Uint32 [2, 0, 0, 0])).length
          = ByteOrder.LittleEndian.Uint32 [2, 0, 0, 0]
      ∧ ((2 : Byte) :: 0 :: 0 :: 0 :: [7, 8, 9]).length
          = 4 + ByteOrder.LittleEndian.Uint32 [2, 0, 0, 0]
            + (([7, 8, 9] : List Byte).drop (ByteOrder.LittleEndian.Uint32 [2, 0, 0, 0])).length) :=
  ⟨by decide, C7_read_frame 2 0 0 0 [7, 8, 9] Error.EOF (by decide)⟩

/-- C8: on a source that ends cleanly with fewer than four bytes left, `ReadUint32LE` and
`ReadBorshSlice` both fail, with `io.EOF` when no byte is left and with the different error
`io.ErrUnexpectedEOF` when one, two or three bytes are left; the length returned is `0` and
`ReadBorshSlice` returns nil content. -/
theorem C8_short_header (bs : List Byte) (h : bs.length < 4) :
    ReadUint32LE (Reader.ofBytes bs)
      = ((0, some (if bs.length = 0 then Error.EOF else Error.ErrUnexpectedEOF)),
         Reader.ofBytes [])
    ∧ ReadBorshSlice (Reader.ofBytes bs)
      = ((none, 0, some (if bs.length = 0 then Error.EOF else Error.ErrUnexpectedEOF)),
         Reader.ofBytes [])
    ∧ Error.EOF ≠ Error.ErrUnexpectedEOF := by
  have he : (if 0 < bs.length ∧ Error.EOF = Error.EOF then Error.ErrUnexpectedEOF else Error.EOF)
      = (if bs.length = 0 then Error.EOF else Error.ErrUnexpectedEOF) := by
    by_cases h0 : bs.length = 0
    · simp [h0]
    · simp [h0, Nat.pos_of_ne_zero h0]
  refine ⟨?_, ?_, by decide⟩
  · unfold ReadUint32LE Reader.ofBytes
    rw [ReadUint32_short _ _ _ h, he]
  · unfold Reader.ofBytes
    rw [ReadBorshSlice_short _ _ h, he]

/-- C8, at a source with two bytes left. -/
theorem C8_short_header_witness :
    ([1, 2] : List Byte).length < 4
    ∧ (ReadUint32LE (Reader.ofBytes [1, 2])
        = ((0, some (if ([1, 2] : List Byte).length = 0 then Error.EOF
              else Error.ErrUnexpectedEOF)),
           Reader.ofBytes [])
      ∧ ReadBorshSlice (Reader.ofBytes [1, 2])
        = ((none, 0, some (if ([1, 2] : List Byte).length = 0 then Error.EOF
              else Error.ErrUnexpectedEOF)),
           Reader.ofBytes [])
      ∧ Error.EOF ≠ Error.ErrUnexpectedEOF) :=
  ⟨by decide, C8_short_header [1, 2] (by decide)⟩

/-- C9: for every `uint32` value `v`, `WriteUint32LE` appends exactly four bytes to a
fault-free sink, least-significant first: byte `i` is `(v >> 8i) & 0xFF` for `i = 0..3`;
`ReadUint32LE` on those four bytes returns `v`, and on `01 00 00 00` it returns `1`. -/
theorem C9_uint32_little_endian (out : List Byte) (v : Nat) (h : v < 2 ^ 32) :
    WriteUint32LE { out := out, fault := none } v
      = (none, { out := out ++ ByteOrder.LittleEndian.PutUint32 v, fault := none })
    ∧ (ByteOrder.LittleEndian.PutUint32 v).length = 4
    ∧ (ByteOrder.LittleEndian.PutUint32 v).map Fin.val
        = [(v >>> 0) &&& 0xFF, (v >>> 8) &&& 0xFF, (v >>> 16) &&& 0xFF, (v >>> 24) &&& 0xFF]
    ∧ ReadUint32LE (Reader.ofBytes (ByteOrder.LittleEndian.PutUint32 v))
        = ((v, none), Reader.ofBytes [])
    ∧ ReadUint32LE (Reader.ofBytes [0x01, 0x00, 0x00, 0x00]) = ((1, none), Reader.ofBytes []) := by
  have hmask : ∀ x : Nat, x &&& 0xFF = x % 256 := fun x => Nat.and_pow_two_sub_one_eq_mod x 8
  have hv := Uint32_PutUint32 .LittleEndian v
  rw [show uint32 v = v from Nat.mod_eq_of_lt h] at hv
  refine ⟨rfl, rfl, ?_, ?_, by decide⟩
  · simp only [ByteOrder.PutUint32, byte, List.map_cons, List.map_nil, hmask, Nat.shiftRight_zero]
  · simp only [ByteOrder.PutUint32] at hv
    simp only [ReadUint32LE, Reader.ofBytes, ByteOrder.PutUint32, ReadUint32_cons4, hv]

/-- C9, at `v = 0x01020304`, written as `04 03 02 01`. -/
theorem C9_uint32_little_endian_witness :
    0x01020304 < 2 ^ 32
    ∧ ByteOrder.LittleEndian.PutUint32 0x01020304 = [0x04, 0x03, 0x02, 0x01]
    ∧ (WriteUint32LE { out := [], fault := none } 0x01020304
        = (none, { out := [] ++ ByteOrder.LittleEndian.PutUint32 0x01020304, fault := none })
      ∧ (ByteOrder.LittleEndian.PutUint32 0x01020304).length = 4
      ∧ (ByteOrder.LittleEndian.PutUint32 0x01020304).map Fin.val
          = [(0x01020304 >>> 0) &&& 0xFF, (0x01020304 >>> 8) &&& 0xFF,
             (0x01020304 >>> 16) &&& 0xFF, (0x01020304 >>> 24) &&& 0xFF]
      ∧ ReadUint32LE (Reader.ofBytes (ByteOrder.LittleEndian.PutUint32 0x01020304))
          = ((0x01020304, none), Reader.ofBytes [])
      ∧ ReadUint32LE (Reader.ofBytes [0x01, 0x00, 0x00, 0x00])
          = ((1, none), Reader.ofBytes [])) :=
  ⟨by decide, by decide, C9_uint32_little_endian [] 0x01020304 (by decide)⟩

/-- C10: once the encoder `Get` has succeeded, `WriteZSTDByteSlice b` returns the count and
error, and leaves the sink, that `WriteBorshSlice (EncodeAll b)` does, on every sink and so on
a fault-free one: a compressed frame is byte for byte the plain frame of the compressed
payload, with no byte added to tell the two apart. -/
theorem C10_compressed_is_plain_frame (c : Codec) (bf : BorshFile) (pool pool1 : Pool)
    (enc : Nat) (b : List Byte) (hget : pool.Get = (.ok enc, pool1)) :
    (BorshFile.WriteZSTDByteSlice c bf pool b).1 = (bf.WriteBorshSlice (c.EncodeAll b)).1
    ∧ (BorshFile.WriteZSTDByteSlice c bf pool b).2.1 = (bf.WriteBorshSlice (c.EncodeAll b)).2 := by
  rw [WriteZSTDByteSlice_of_Get c bf pool pool1 enc b hget]
  exact ⟨rfl, rfl⟩

/-- C10, at the payload `5, 6, 7` on a fault-free sink holding one earlier byte: the bytes
appended are the header for four bytes and the four bytes of the tag codec. -/
theorem C10_compressed_is_plain_frame_witness :
    emptyPool.Get = (.ok 0, { idle := [], fresh := 1, getErr := none })
    ∧ (BorshFile.WriteBorshSlice { file := { out := [9], fault := none } }
          (tagCodec.EncodeAll [5, 6, 7]))
        = ((8, none), { file := { out := [9, 4, 0, 0, 0, 0x28, 5, 6, 7], fault := none } })
    ∧ ((BorshFile.WriteZSTDByteSlice tagCodec { file := { out := [9], fault := none } }
          emptyPool [5, 6, 7]).1
        = (BorshFile.WriteBorshSlice { file := { out := [9], fault := none } }
            (tagCodec.EncodeAll [5, 6, 7])).1
      ∧ (BorshFile.WriteZSTDByteSlice tagCodec { file := { out := [9], fault := none } }
          emptyPool [5, 6, 7]).2.1
        = (BorshFile.WriteBorshSlice { file := { out := [9], fault := none } }
            (tagCodec.EncodeAll [5, 6, 7])).2) :=
  ⟨rfl, by decide,
   C10_compressed_is_plain_frame tagCodec { file := { out := [9], fault := none } } emptyPool
     { idle := [], fresh := 1, getErr := none } 0 [5, 6, 7] rfl⟩

/-! ## Error paths of the writers and of the compressed reader -/

theorem Write_count_le (w : Writer) (p : List Byte) : (w.Write p).1.1 ≤ p.length := by
  unfold Writer.Write
  cases hf : w.fault with
  | none => simp
  | some ke =>
    obtain ⟨k, e⟩ := ke
    by_cases hk : p.length ≤ k
    · simp [hk]
    · simp [hk]; omega

theorem Write_out (w : Writer) (p : List Byte) :
    (w.Write p).2.out = w.out ++ p.take (w.Write p).1.1 := by
  unfold Writer.Write
  cases hf : w.fault with
  | none => simp
  | some ke =>
    obtain ⟨k, e⟩ := ke
    by_cases hk : p.length ≤ k
    · simp [hk]
    · simp [hk]

theorem Write_count_of_ok (w : Writer) (p : List Byte) (h : (w.Write p).1.2 = none) :
    (w.Write p).1.1 = p.length := by
  unfold Writer.Write at h ⊢
  cases hf : w.fault with
  | none => simp
  | some ke =>
    obtain ⟨k, e⟩ := ke
    rw [hf] at h
    by_cases hk : p.length ≤ k
    · simp [hk]
    · simp [hk] at h

theorem Write_count_of_err (w : Writer) (p : List Byte) (e : Error)
    (h : (w.Write p).1.2 = some e) : (w.Write p).1.1 < p.length := by
  unfold Writer.Write at h ⊢
  cases hf : w.fault with
  | none => rw [hf] at h; simp at h
  | some ke =>
    obtain ⟨k, e1⟩ := ke
    rw [hf] at h
    by_cases hk : p.length ≤ k
    · simp [hk] at h
    · simp [hk]; omega

theorem WriteBorshSliceWith_header_err {σ : Type}
    (write : σ → List Byte → (Nat × Option Error) × σ) (file : σ) (buf : List Byte) (e : Error)
    (h : (write file (ByteOrder.LittleEndian.PutUint32 (uint32 buf.length))).1.2 = some e) :
    WriteBorshSliceWith write file buf
      = ((0, some e), (write file (ByteOrder.LittleEndian.PutUint32 (uint32 buf.length))).2) := by
  simp only [WriteBorshSliceWith, WriteUint32LEWith, WriteUint32With, h]

theorem WriteBorshSliceWith_content_err {σ : Type}
    (write : σ → List Byte → (Nat × Option Error) × σ) (file : σ) (buf : List Byte) (e : Error)
    (hh : (write file (ByteOrder.LittleEndian.PutUint32 (uint32 buf.length))).1.2 = none)
    (hc : (write (write file (ByteOrder.LittleEndian.PutUint32 (uint32 buf.length))).2
            buf).1.2 = some e) :
    WriteBorshSliceWith write file buf
      = ((0, some e),
         (write (write file (ByteOrder.LittleEndian.PutUint32 (uint32 buf.length))).2 buf).2) := by
  simp only [WriteBorshSliceWith, WriteUint32LEWith, WriteUint32With, hh, WriteBytesWith]
  generalize write (write file (ByteOrder.LittleEndian.PutUint32 (uint32 buf.length))).2 buf
    = r at hc
  obtain ⟨⟨n, e1⟩, w2⟩ := r
  simp only at hc
  subst hc
  rfl

theorem WriteBorshSliceWith_success {σ : Type}
    (write : σ → List Byte → (Nat × Option Error) × σ) (file : σ) (buf : List Byte)
    (hh : (write file (ByteOrder.LittleEndian.PutUint32 (uint32 buf.length))).1.2 = none)
    (hc : (write (write file (ByteOrder.LittleEndian.PutUint32 (uint32 buf.length))).2
            buf).1.2 = none) :
    WriteBorshSliceWith write file buf
      = (((write (write file (ByteOrder.LittleEndian.PutUint32 (uint32 buf.length))).2
            buf).1.1 + 4, none),
         (write (write file (ByteOrder.LittleEndian.PutUint32 (uint32 buf.length))).2 buf).2) := by
  simp only [WriteBorshSliceWith, WriteUint32LEWith, WriteUint32With, hh, WriteBytesWith]
  generalize write (write file (ByteOrder.LittleEndian.PutUint32 (uint32 buf.length))).2 buf
    = r at hc
  obtain ⟨⟨n, e1⟩, w2⟩ := r
  simp only at hc
  subst hc
  rfl

theorem recordWrites_apply {σ : Type} (write : σ → List Byte → (Nat × Option Error) × σ)
    (s : σ) (log : List (List Byte)) (p : List Byte) :
    recordWrites write (s, log) p = ((write s p).1, ((write s p).2, log ++ [p])) := rfl

theorem WriteBorshSlice_eq_With (bf : BorshFile) (buf : List Byte) :
    bf.WriteBorshSlice buf
      = ((WriteBorshSliceWith Writer.Write bf.file buf).1,
         { file := (WriteBorshSliceWith Writer.Write bf.file buf).2 }) := rfl

/-- On the byte-stream sink `WriteBorshSlice` is the body of the method as written in terms of
`WriteUint32LE` and `bf.WriteBytes`. -/
theorem WriteBorshSlice_unfold (bf : BorshFile) (buf : List Byte) :
    bf.WriteBorshSlice buf
      = (match WriteUint32LE bf.file (uint32 buf.length) with
         | (some err, file1) => ((0, some err), { file := file1 })
         | (none, file1) =>
           match BorshFile.WriteBytes { file := file1 } buf with
           | ((_, some err), bf2) => ((0, some err), bf2)
           | ((n, none), bf2) => ((n + 4, none), bf2)) := by
  rw [WriteBorshSlice_eq_With]
  simp only [WriteBorshSliceWith, WriteUint32LEWith, WriteUint32With, WriteUint32LE, WriteUint32,
    WriteBytesWith, BorshFile.WriteBytes]
  rcases bf.file.Write (ByteOrder.LittleEndian.PutUint32 (uint32 buf.length))
    with ⟨⟨n, err⟩, w1⟩
  cases err with
  | some e => rfl
  | none =>
    simp only
    rcases w1.Write buf with ⟨⟨m, err2⟩, w2⟩
    cases err2 <;> rfl

theorem WriteUint32_eq_With (w : Writer) (i : Nat) (o : ByteOrder) :
    WriteUint32 w i o = WriteUint32With Writer.Write w i o := rfl

theorem WriteBorshSlice_header_err (bf : BorshFile) (buf : List Byte) (e : Error)
    (h : (bf.file.Write (ByteOrder.LittleEndian.PutUint32 (uint32 buf.length))).1.2 = some e) :
    bf.WriteBorshSlice buf
      = ((0, some e),
         { file := (bf.file.Write (ByteOrder.LittleEndian.PutUint32 (uint32 buf.length))).2 }) := by
  rw [WriteBorshSlice_eq_With, WriteBorshSliceWith_header_err Writer.Write bf.file buf e h]

theorem WriteBorshSlice_content_err (bf : BorshFile) (buf : List Byte) (e : Error)
    (hh : (bf.file.Write (ByteOrder.LittleEndian.PutUint32 (uint32 buf.length))).1.2 = none)
    (hc : ((bf.file.Write (ByteOrder.LittleEndian.PutUint32 (uint32 buf.length))).2.Write
            buf).1.2 = some e) :
    bf.WriteBorshSlice buf
      = ((0, some e),
         { file := ((bf.file.Write (ByteOrder.LittleEndian.PutUint32 (uint32 buf.length))).2.Write
                      buf).2 }) := by
  rw [WriteBorshSlice_eq_With, WriteBorshSliceWith_content_err Writer.Write bf.file buf e hh hc]

theorem WriteBorshSlice_success (bf : BorshFile) (buf : List Byte)
    (hh : (bf.file.Write (ByteOrder.LittleEndian.PutUint32 (uint32 buf.length))).1.2 = none)
    (hc : ((bf.file.Write (ByteOrder.LittleEndian.PutUint32 (uint32 buf.length))).2.Write
            buf).1.2 = none) :
    bf.WriteBorshSlice buf
      = ((buf.length + 4, none),
         { file := ((bf.file.Write (ByteOrder.LittleEndian.PutUint32 (uint32 buf.length))).2.Write
                      buf).2 }) := by
  rw [WriteBorshSlice_eq_With, WriteBorshSliceWith_success Writer.Write bf.file buf hh hc,
    Write_count_of_ok _ _ hc]

/-- C11: over any kind of sink, with the sink's `Write` an arbitrary function and a log of
the calls the sink received, `WriteBorshSlice` fails exactly when the header write or, after a
successful header write, the content write fails.  A failed header write makes it return
`(0, err)` with the sink's error unchanged; the sink that comes back is the sink as that one
write left it and the log has gained the header write alone, so the content write is never
attempted.  A failed content write makes it return `(0, err)` with the sink's error unchanged,
after exactly the two writes.  When both writes succeed it returns the count of the content
write plus `4` and no error.  The method of `BorshFile` is this function at the byte-stream
sink, where the same holds and the count on success is `len buf + 4`. -/
theorem C11_write_errors_are_the_sinks {σ : Type}
    (write : σ → List Byte → (Nat × Option Error) × σ) (file : σ) (log : List (List Byte))
    (bf : BorshFile) (buf : List Byte) :
    (∀ e, (write file (ByteOrder.LittleEndian.PutUint32 (uint32 buf.length))).1.2 = some e →
        WriteBorshSliceWith write file buf
          = ((0, some e),
             (write file (ByteOrder.LittleEndian.PutUint32 (uint32 buf.length))).2)
        ∧ (WriteBorshSliceWith (recordWrites write) (file, log) buf).2.2
          = log ++ [ByteOrder.LittleEndian.PutUint32 (uint32 buf.length)])
    ∧ (∀ e, (write file (ByteOrder.LittleEndian.PutUint32 (uint32 buf.length))).1.2 = none →
        (write (write file (ByteOrder.LittleEndian.PutUint32 (uint32 buf.length))).2
          buf).1.2 = some e →
        WriteBorshSliceWith write file buf
          = ((0, some e),
             (write (write file (ByteOrder.LittleEndian.PutUint32 (uint32 buf.length))).2
               buf).2)
        ∧ (WriteBorshSliceWith (recordWrites write) (file, log) buf).2.2
          = log ++ [ByteOrder.LittleEndian.PutUint32 (uint32 buf.length), buf])
    ∧ ((write file (ByteOrder.LittleEndian.PutUint32 (uint32 buf.length))).1.2 = none →
        (write (write file (ByteOrder.LittleEndian.PutUint32 (uint32 buf.length))).2
          buf).1.2 = none →
        WriteBorshSliceWith write file buf
          = (((write (write file (ByteOrder.LittleEndian.PutUint32 (uint32 buf.length))).2
                buf).1.1 + 4, none),
             (write (write file (ByteOrder.LittleEndian.PutUint32 (uint32 buf.length))).2
               buf).2)
        ∧ (WriteBorshSliceWith (recordWrites write) (file, log) buf).2.2
          = log ++ [ByteOrder.LittleEndian.PutUint32 (uint32 buf.length), buf])
    ∧ ((WriteBorshSliceWith write file buf).1.2 ≠ none ↔
        (write file (ByteOrder.LittleEndian.PutUint32 (uint32 buf.length))).1.2 ≠ none
        ∨ ((write file (ByteOrder.LittleEndian.PutUint32 (uint32 buf.length))).1.2 = none
            ∧ (write (write file (ByteOrder.LittleEndian.PutUint32 (uint32 buf.length))).2
                buf).1.2 ≠ none))
    ∧ bf.WriteBorshSlice buf
        = ((WriteBorshSliceWith Writer.Write bf.file buf).1,
           { file := (WriteBorshSliceWith Writer.Write bf.file buf).2 })
    ∧ (∀ e, (bf.file.Write (ByteOrder.LittleEndian.PutUint32 (uint32 buf.length))).1.2 = some e →
        bf.WriteBorshSlice buf
          = ((0, some e),
             { file := (bf.file.Write
                 (ByteOrder.LittleEndian.PutUint32 (uint32 buf.length))).2 }))
    ∧ (∀ e, (bf.file.Write (ByteOrder.LittleEndian.PutUint32 (uint32 buf.length))).1.2 = none →
        ((bf.file.Write (ByteOrder.LittleEndian.PutUint32 (uint32 buf.length))).2.Write
          buf).1.2 = some e →
        (bf.WriteBorshSlice buf).1 = (0, some e))
    ∧ ((bf.file.Write (ByteOrder.LittleEndian.PutUint32 (uint32 buf.length))).1.2 = none →
        ((bf.file.Write (ByteOrder.LittleEndian.PutUint32 (uint32 buf.length))).2.Write
          buf).1.2 = none →
        (bf.WriteBorshSlice buf).1 = (buf.length + 4, none))
    ∧ ((bf.WriteBorshSlice buf).1.2 ≠ none ↔
        (bf.file.Write (ByteOrder.LittleEndian.PutUint32 (uint32 buf.length))).1.2 ≠ none
        ∨ ((bf.file.Write (ByteOrder.LittleEndian.PutUint32 (uint32 buf.length))).1.2 = none
            ∧ ((bf.file.Write (ByteOrder.LittleEndian.PutUint32 (uint32 buf.length))).2.Write
                buf).1.2 ≠ none)) := by
  refine ⟨fun e h => ⟨WriteBorshSliceWith_header_err write file buf e h, ?_⟩,
    fun e hh hc => ⟨WriteBorshSliceWith_content_err write file buf e hh hc, ?_⟩,
    fun hh hc => ⟨WriteBorshSliceWith_success write file buf hh hc, ?_⟩, ?_,
    WriteBorshSlice_eq_With bf buf,
    fun e h => WriteBorshSlice_header_err bf buf e h,
    fun e hh hc => by rw [WriteBorshSlice_content_err bf buf e hh hc],
    fun hh hc => by rw [WriteBorshSlice_success bf buf hh hc], ?_⟩
  · rw [WriteBorshSliceWith_header_err (recordWrites write) (file, log) buf e h]
    rfl
  · rw [WriteBorshSliceWith_content_err (recordWrites write) (file, log) buf e hh hc]
    simp [recordWrites_apply]
  · rw [WriteBorshSliceWith_success (recordWrites write) (file, log) buf hh hc]
    simp [recordWrites_apply]
  · cases hh : (write file (ByteOrder.LittleEndian.PutUint32 (uint32 buf.length))).1.2 with
    | some e => rw [WriteBorshSliceWith_header_err write file buf e hh]; simp
    | none =>
      cases hc : (write (write file (ByteOrder.LittleEndian.PutUint32 (uint32 buf.length))).2
          buf).1.2 with
      | some e => rw [WriteBorshSliceWith_content_err write file buf e hh hc]; simp
      | none => rw [WriteBorshSliceWith_success write file buf hh hc]; simp
  · cases hh : (bf.file.Write (ByteOrder.LittleEndian.PutUint32 (uint32 buf.length))).1.2 with
    | some e => rw [WriteBorshSlice_header_err bf buf e hh]; simp
    | none =>
      cases hc : ((bf.file.Write
          (ByteOrder.LittleEndian.PutUint32 (uint32 buf.length))).2.Write buf).1.2 with
      | some e => rw [WriteBorshSlice_content_err bf buf e hh hc]; simp
      | none => rw [WriteBorshSlice_success bf buf hh hc]; simp

/-- C11, at three sinks and the payload `5, 6, 7`.  On a sink whose first write fails and
whose later writes would all succeed, the failed header write ends the call and no content
byte reaches the sink although the sink would have taken it.  On a recording sink that accepts
two more bytes the log holds the header write alone.  On the byte-stream sink that accepts two
more bytes the call returns `(0, err)` with the sink's error after two header bytes. -/
theorem C11_write_errors_are_the_sinks_witness :
    WriteBorshSliceWith (failOnce (Error.Other 7)) ([9], true) [5, 6, 7]
      = ((0, some (Error.Other 7)), ([9], false))
    ∧ (failOnce (Error.Other 7) ([9], false) [5, 6, 7]).2 = ([9, 5, 6, 7], false)
    ∧ (WriteBorshSliceWith (recordWrites Writer.Write)
          ({ out := [9], fault := some (2, Error.Other 7) }, []) [5, 6, 7]).2.2
        = [] ++ [[3, 0, 0, 0]]
    ∧ (WriteBorshSliceWith (recordWrites Writer.Write)
          ({ out := [9], fault := none }, []) [5, 6, 7]).2.2
        = [[3, 0, 0, 0], [5, 6, 7]]
    ∧ (BorshFile.WriteBorshSlice { file := { out := [9], fault := some (2, Error.Other 7) } }
        [5, 6, 7])
      = ((0, some (Error.Other 7)),
         { file := { out := [9, 3, 0], fault := some (0, Error.Other 7) } }) :=
  ⟨((C11_write_errors_are_the_sinks (failOnce (Error.Other 7)) ([9], true) []
      { file := { out := [], fault := none } } [5, 6, 7]).1 (Error.Other 7) (by decide)).1,
   by decide,
   ((C11_write_errors_are_the_sinks Writer.Write { out := [9], fault := some (2, Error.Other 7) }
      [] { file := { out := [], fault := none } } [5, 6, 7]).1 (Error.Other 7) (by decide)).2,
   by decide,
   (C11_write_errors_are_the_sinks Writer.Write { out := [9], fault := none } []
      { file := { out := [9], fault := some (2, Error.Other 7) } }
      [5, 6, 7]).2.2.2.2.2.1 (Error.Other 7) (by decide)⟩

/-- C13: whenever the header write succeeds and the content write then fails with `err`,
`WriteBorshSlice` returns `(0, err)` while the sink has grown by the four header bytes and by
the content bytes it accepted before the fault, fewer than `len buf`: the failed call does not
leave the sink unchanged. -/
theorem C13_write_not_atomic (bf : BorshFile) (buf : List Byte) (e : Error)
    (hh : (bf.file.Write (ByteOrder.LittleEndian.PutUint32 (uint32 buf.length))).1.2 = none)
    (hc : ((bf.file.Write (ByteOrder.LittleEndian.PutUint32 (uint32 buf.length))).2.Write
            buf).1.2 = some e) :
    (bf.WriteBorshSlice buf).1 = (0, some e)
    ∧ (bf.WriteBorshSlice buf).2.file.out
        = bf.file.out ++ ByteOrder.LittleEndian.PutUint32 (uint32 buf.length)
            ++ buf.take ((bf.file.Write
                (ByteOrder.LittleEndian.PutUint32 (uint32 buf.length))).2.Write buf).1.1
    ∧ ((bf.file.Write (ByteOrder.LittleEndian.PutUint32 (uint32 buf.length))).2.Write
          buf).1.1 < buf.length
    ∧ (bf.WriteBorshSlice buf).2.file.out.length
        = bf.file.out.length + 4
          + ((bf.file.Write (ByteOrder.LittleEndian.PutUint32 (uint32 buf.length))).2.Write
              buf).1.1
    ∧ (bf.WriteBorshSlice buf).2.file.out ≠ bf.file.out := by
  have hlt := Write_count_of_err _ _ e hc
  have hout : (bf.WriteBorshSlice buf).2.file.out
      = bf.file.out ++ ByteOrder.LittleEndian.PutUint32 (uint32 buf.length)
          ++ buf.take ((bf.file.Write
              (ByteOrder.LittleEndian.PutUint32 (uint32 buf.length))).2.Write buf).1.1 := by
    rw [WriteBorshSlice_content_err bf buf e hh hc]
    simp only
    rw [Write_out, Write_out, Write_count_of_ok _ _ hh, PutUint32_length]
    rw [List.take_of_length_le (Nat.le_of_eq (PutUint32_length _ _))]
  have hlen : (bf.WriteBorshSlice buf).2.file.out.length
      = bf.file.out.length + 4
        + ((bf.file.Write (ByteOrder.LittleEndian.PutUint32 (uint32 buf.length))).2.Write
            buf).1.1 := by
    rw [hout, List.length_append, List.length_append, PutUint32_length, List.length_take]
    omega
  refine ⟨by rw [WriteBorshSlice_content_err bf buf e hh hc], hout, hlt, hlen, ?_⟩
  intro heq
  rw [heq] at hlen
  omega

/-- C13, at a sink that accepts five more bytes: the header and one content byte are written,
the call returns `(0, err)`. -/
theorem C13_write_not_atomic_witness :
    (BorshFile.WriteBorshSlice { file := { out := [9], fault := some (5, Error.Other 7) } }
        [5, 6, 7])
      = ((0, some (Error.Other 7)),
         { file := { out := [9, 3, 0, 0, 0, 5], fault := some (0, Error.Other 7) } })
    ∧ (BorshFile.WriteBorshSlice { file := { out := [9], fault := some (5, Error.Other 7) } }
        [5, 6, 7]).2.file.out ≠ [9] :=
  ⟨by decide,
   (C13_write_not_atomic { file := { out := [9], fault := some (5, Error.Other 7) } } [5, 6, 7]
     (Error.Other 7) (by decide) (by decide)).2.2.2.2⟩

theorem ReadZSTDBorshSlice_read_err (c : Codec) (reader reader1 : Reader) (pool : Pool)
    (s : Slice) (n : Nat) (e : Error) (h : ReadBorshSlice reader = ((s, n, some e), reader1)) :
    ReadZSTDBorshSlice c reader pool = ((none, 0, some e), reader1, pool) := by
  simp only [ReadZSTDBorshSlice, h]

theorem ReadZSTDBorshSlice_get_err (c : Codec) (reader reader1 : Reader) (pool pool1 : Pool)
    (s : Slice) (n : Nat) (e : Error) (h : ReadBorshSlice reader = ((s, n, none), reader1))
    (hget : pool.Get = (.error e, pool1)) :
    ReadZSTDBorshSlice c reader pool = ((none, 0, some e), reader1, pool1) := by
  simp only [ReadZSTDBorshSlice, h, hget]

theorem ReadZSTDBorshSlice_decode_err (c : Codec) (reader reader1 : Reader) (pool pool1 : Pool)
    (s : Slice) (n dec : Nat) (e : Error) (h : ReadBorshSlice reader = ((s, n, none), reader1))
    (hget : pool.Get = (.ok dec, pool1)) (hdec : (c.DecodeAll s.bytes).2 = some e) :
    ReadZSTDBorshSlice c reader pool = ((none, 0, some e), reader1, pool1) := by
  simp only [ReadZSTDBorshSlice, h, hget]
  generalize c.DecodeAll s.bytes = r at hdec
  obtain ⟨d, e1⟩ := r
  simp only at hdec
  subst hdec
  rfl

theorem ReadZSTDBorshSlice_success (c : Codec) (reader reader1 : Reader) (pool pool1 : Pool)
    (s : Slice) (n dec : Nat) (h : ReadBorshSlice reader = ((s, n, none), reader1))
    (hget : pool.Get = (.ok dec, pool1)) (hdec : (c.DecodeAll s.bytes).2 = none) :
    ReadZSTDBorshSlice c reader pool
      = (((c.DecodeAll s.bytes).1, n, none), reader1, pool1.Put dec) := by
  simp only [ReadZSTDBorshSlice, h, hget]
  generalize c.DecodeAll s.bytes = r at hdec
  obtain ⟨d, e1⟩ := r
  simp only at hdec
  subst hdec
  rfl

theorem WriteZSTDByteSlice_get_err (c : Codec) (bf : BorshFile) (pool pool1 : Pool)
    (buf : List Byte) (e : Error) (hget : pool.Get = (.error e, pool1)) :
    BorshFile.WriteZSTDByteSlice c bf pool buf = ((0, some e), bf, pool1) := by
  simp only [BorshFile.WriteZSTDByteSlice, hget]

theorem Pool.Get_error_pool (p p1 : Pool) (e : Error) (h : p.Get = (.error e, p1)) :
    p1 = p ∧ p.getErr = some e := by
  unfold Pool.Get at h
  cases hg : p.getErr with
  | some e1 =>
    rw [hg] at h
    simp only [Prod.mk.injEq, Except.error.injEq] at h
    exact ⟨h.2.symm, by rw [h.1]⟩
  | none =>
    rw [hg] at h
    cases hi : p.idle with
    | nil => rw [hi] at h; simp at h
    | cons d rest => rw [hi] at h; simp at h

/-- C12: `ReadZSTDBorshSlice` fails exactly on the three failures below it, and then returns
nil content, length `0` and the underlying error unchanged: the error of `ReadBorshSlice` on
the source, else the error of the decoder pool's `Get`, else the error with which `DecodeAll`
rejects the frame content.  When none of the three fails it returns no error. -/
theorem C12_compressed_read_errors (c : Codec) (reader : Reader) (pool : Pool) :
    (∀ s n e reader1, ReadBorshSlice reader = ((s, n, some e), reader1) →
        (ReadZSTDBorshSlice c reader pool).1 = (none, 0, some e))
    ∧ (∀ s n reader1 e pool1, ReadBorshSlice reader = ((s, n, none), reader1) →
        pool.Get = (.error e, pool1) →
        (ReadZSTDBorshSlice c reader pool).1 = (none, 0, some e))
    ∧ (∀ s n reader1 dec pool1 e, ReadBorshSlice reader = ((s, n, none), reader1) →
        pool.Get = (.ok dec, pool1) → (c.DecodeAll s.bytes).2 = some e →
        (ReadZSTDBorshSlice c reader pool).1 = (none, 0, some e))
    ∧ (∀ s n reader1 dec pool1, ReadBorshSlice reader = ((s, n, none), reader1) →
        pool.Get = (.ok dec, pool1) → (c.DecodeAll s.bytes).2 = none →
        (ReadZSTDBorshSlice c reader pool).1 = ((c.DecodeAll s.bytes).1, n, none))
    ∧ ((ReadZSTDBorshSlice c reader pool).1.2.2 ≠ none →
        (ReadZSTDBorshSlice c reader pool).1 =
          (none, 0, (ReadZSTDBorshSlice c reader pool).1.2.2)) := by
  refine ⟨fun s n e r1 h => by rw [ReadZSTDBorshSlice_read_err c reader r1 pool s n e h],
    fun s n r1 e p1 h hg => by rw [ReadZSTDBorshSlice_get_err c reader r1 pool p1 s n e h hg],
    fun s n r1 dec p1 e h hg hd => by
      rw [ReadZSTDBorshSlice_decode_err c reader r1 pool p1 s n dec e h hg hd],
    fun s n r1 dec p1 h hg hd => by
      rw [ReadZSTDBorshSlice_success c reader r1 pool p1 s n dec h hg hd], ?_⟩
  rcases hrd : ReadBorshSlice reader with ⟨⟨s, n, oe⟩, r1⟩
  cases oe with
  | some e => rw [ReadZSTDBorshSlice_read_err c reader r1 pool s n e hrd]; simp
  | none =>
    rcases hget : pool.Get with ⟨g, p1⟩
    cases g with
    | error e => rw [ReadZSTDBorshSlice_get_err c reader r1 pool p1 s n e hrd hget]; simp
    | ok dec =>
      cases hd : (c.DecodeAll s.bytes).2 with
      | some e =>
        rw [ReadZSTDBorshSlice_decode_err c reader r1 pool p1 s n dec e hrd hget hd]; simp
      | none =>
        rw [ReadZSTDBorshSlice_success c reader r1 pool p1 s n dec hrd hget hd]; simp

/-- C12, at a source holding one frame whose content byte the tag codec rejects: the codec's
error comes back unchanged with nil content and length `0`. -/
theorem C12_compressed_read_errors_witness :
    (ReadZSTDBorshSlice tagCodec (Reader.ofBytes [1, 0, 0, 0, 0]) emptyPool).1
      = (none, 0, some (Error.Other 1)) :=
  (C12_compressed_read_errors tagCodec (Reader.ofBytes [1, 0, 0, 0, 0]) emptyPool).2.2.1
    (some [0]) 1 (Reader.ofBytes []) 0 { idle := [], fresh := 1, getErr := none }
    (Error.Other 1) (by decide) rfl (by decide)

/-- C14: `WriteZSTDByteSlice` fails exactly when the encoder pool's `Get` fails or the
`WriteBorshSlice` of the compressed bytes fails.  When `Get` fails with `err` the call returns
`(0, err)`, the sink is untouched, the pool is the pool as it was (nothing is put into it) and
the result depends neither on the codec nor on the payload (nothing is compressed).  When
`Get` succeeds the count and error are those of `WriteBorshSlice (EncodeAll buf)`. -/
theorem C14_compressed_write_errors (c : Codec) (bf : BorshFile) (pool : Pool)
    (buf : List Byte) :
    (∀ e pool1, pool.Get = (.error e, pool1) →
        BorshFile.WriteZSTDByteSlice c bf pool buf = ((0, some e), bf, pool)
        ∧ ∀ (c2 : Codec) (buf2 : List Byte),
            BorshFile.WriteZSTDByteSlice c2 bf pool buf2 = ((0, some e), bf, pool))
    ∧ (∀ enc pool1, pool.Get = (.ok enc, pool1) →
        (BorshFile.WriteZSTDByteSlice c bf pool buf).1
          = (bf.WriteBorshSlice (c.EncodeAll buf)).1)
    ∧ ((BorshFile.WriteZSTDByteSlice c bf pool buf).1.2 ≠ none ↔
        (∃ e pool1, pool.Get = (.error e, pool1))
        ∨ ((∃ enc pool1, pool.Get = (.ok enc, pool1))
            ∧ (bf.WriteBorshSlice (c.EncodeAll buf)).1.2 ≠ none)) := by
  refine ⟨?_, ?_, ?_⟩
  · intro e pool1 hget
    obtain ⟨hp, -⟩ := Pool.Get_error_pool pool pool1 e hget
    subst hp
    exact ⟨WriteZSTDByteSlice_get_err c bf pool1 pool1 buf e hget,
      fun c2 buf2 => WriteZSTDByteSlice_get_err c2 bf pool1 pool1 buf2 e hget⟩
  · intro enc pool1 hget
    rw [WriteZSTDByteSlice_of_Get c bf pool pool1 enc buf hget]
  · rcases hget : pool.Get with ⟨g, p1⟩
    cases g with
    | error e =>
      rw [WriteZSTDByteSlice_get_err c bf pool p1 buf e hget]
      simp
    | ok enc =>
      rw [WriteZSTDByteSlice_of_Get c bf pool p1 enc buf hget]
      simp

/-- C14, at a pool whose `Get` fails: `(0, err)` comes back, the sink and the pool are as
they were. -/
theorem C14_compressed_write_errors_witness :
    BorshFile.WriteZSTDByteSlice tagCodec { file := { out := [9], fault := none } }
        { idle := [4], fresh := 5, getErr := some (Error.Other 3) } [5, 6, 7]
      = ((0, some (Error.Other 3)), { file := { out := [9], fault := none } },
         { idle := [4], fresh := 5, getErr := some (Error.Other 3) }) :=
  ((C14_compressed_write_errors tagCodec { file := { out := [9], fault := none } }
      { idle := [4], fresh := 5, getErr := some (Error.Other 3) } [5, 6, 7]).1
    (Error.Other 3) { idle := [4], fresh := 5, getErr := some (Error.Other 3) } rfl).1

/-- C15: for either byte order `o` and every `uint32` value `v`, `ReadUint32` with order `o`
on the four bytes that `WriteUint32 v o` appended to a fault-free sink returns `v`;
`WriteUint32LE` and `ReadUint32LE` are the generic functions at `binary.LittleEndian`; and the
big-endian bytes of `v` are the little-endian bytes reversed. -/
theorem C15_generic_byte_order (o : ByteOrder) (out : List Byte) (v : Nat) (h : v < 2 ^ 32) :
    (WriteUint32 { out := out, fault := none } v o).1 = none
    ∧ ((WriteUint32 { out := out, fault := none } v o).2.out.drop out.length).length = 4
    ∧ ReadUint32 (Reader.ofBytes
          ((WriteUint32 { out := out, fault := none } v o).2.out.drop out.length)) o
        = ((v, none), Reader.ofBytes [])
    ∧ (∀ (w : Writer) (i : Nat), WriteUint32LE w i = WriteUint32 w i ByteOrder.LittleEndian)
    ∧ (∀ r : Reader, ReadUint32LE r = ReadUint32 r ByteOrder.LittleEndian)
    ∧ ByteOrder.BigEndian.PutUint32 v = (ByteOrder.LittleEndian.PutUint32 v).reverse := by
  have hv := Uint32_PutUint32 o v
  rw [show uint32 v = v from Nat.mod_eq_of_lt h] at hv
  refine ⟨rfl, ?_, ?_, fun _ _ => rfl, fun _ => rfl, rfl⟩
  · rw [WriteUint32_ok]
    simp only [List.drop_left, PutUint32_length]
  · rw [WriteUint32_ok]
    simp only [List.drop_left]
    cases o <;>
    · simp only [ByteOrder.PutUint32] at hv
      simp only [Reader.ofBytes, ByteOrder.PutUint32, ReadUint32_cons4, hv]

/-- C15, at `v = 0x01020304` in big-endian order, written as `01 02 03 04`. -/
theorem C15_generic_byte_order_witness :
    0x01020304 < 2 ^ 32
    ∧ (WriteUint32 { out := [9], fault := none } 0x01020304 ByteOrder.BigEndian).2.out
        = [9, 0x01, 0x02, 0x03, 0x04]
    ∧ ReadUint32 (Reader.ofBytes
          ((WriteUint32 { out := [9], fault := none } 0x01020304
            ByteOrder.BigEndian).2.out.drop ([9] : List Byte).length)) ByteOrder.BigEndian
        = ((0x01020304, none), Reader.ofBytes []) :=
  ⟨by decide, by decide,
   (C15_generic_byte_order ByteOrder.BigEndian [9] 0x01020304 (by decide)).2.2.1⟩

/-! ## Sequences of frames -/

theorem writeSlices_ok (bs : List (List Byte)) (out : List Byte) :
    writeSlices { file := { out := out, fault := none } } bs
      = { file := { out := out ++ frames bs, fault := none } } := by
  induction bs generalizing out with
  | nil => simp [writeSlices, frames]
  | cons b bs ih =>
    simp only [writeSlices, frames, WriteBorshSlice_ok, ih, List.append_assoc]

theorem readSlices_frames (bs : List (List Byte)) (h : ∀ b ∈ bs, b.length < 2 ^ 32)
    (n : Nat) (rest : List Byte) (t : Error) :
    readSlices (bs.length + n) { data := frames bs ++ rest, tail := t }
      = (bs.map (fun b => (some b, b.length, none))
            ++ (readSlices n { data := rest, tail := t }).1,
         (readSlices n { data := rest, tail := t }).2) := by
  induction bs with
  | nil => simp [frames]
  | cons b bs ih =>
    have hb : b.length < 2 ^ 32 := h b (List.mem_cons_self _ _)
    have hu : uint32 b.length = b.length := Nat.mod_eq_of_lt hb
    have ih2 := ih (fun x hx => h x (List.mem_cons_of_mem _ hx))
    have hstep : ReadBorshSlice
        { data := ByteOrder.LittleEndian.PutUint32 b.length ++ (b ++ (frames bs ++ rest)),
          tail := t }
        = ((some b, b.length, none), { data := frames bs ++ rest, tail := t }) := by
      rw [ReadBorshSlice_frame b.length _ t (by rw [hu, List.length_append]; omega), hu]
      simp
    rw [show (b :: bs).length + n = (bs.length + n) + 1 by simp; omega]
    simp only [readSlices, frames, hu, List.append_assoc, hstep, ih2, List.map_cons,
      List.cons_append]

/-- C16: for every list of payloads, each shorter than `2 ^ 32` bytes, writing them in order
with `WriteBorshSlice` to an empty fault-free sink leaves the frames one after the other, and
`len bs + 1` calls of `ReadBorshSlice` on those bytes return the payloads with their lengths,
in order and without error, and then fail with `io.EOF` on the last call. -/
theorem C16_frames_concatenate (bs : List (List Byte)) (h : ∀ b ∈ bs, b.length < 2 ^ 32) :
    (writeSlices { file := { out := [], fault := none } } bs).file.out = frames bs
    ∧ readSlices (bs.length + 1)
        (Reader.ofBytes (writeSlices { file := { out := [], fault := none } } bs).file.out)
      = (bs.map (fun b => (some b, b.length, none)) ++ [(none, 0, some Error.EOF)],
         Reader.ofBytes []) := by
  rw [writeSlices_ok]
  refine ⟨by simp, ?_⟩
  have hr := readSlices_frames bs h 1 [] Error.EOF
  simp only [List.append_nil, List.nil_append] at hr ⊢
  rw [Reader.ofBytes, hr]
  rfl

/-- C16, at the three payloads `5 6`, the empty one and `7`. -/
theorem C16_frames_concatenate_witness :
    (∀ b ∈ ([[5, 6], [], [7]] : List (List Byte)), b.length < 2 ^ 32)
    ∧ (writeSlices { file := { out := [], fault := none } } [[5, 6], [], [7]]).file.out
        = [2, 0, 0, 0, 5, 6, 0, 0, 0, 0, 1, 0, 0, 0, 7]
    ∧ readSlices 4 (Reader.ofBytes
          (writeSlices { file := { out := [], fault := none } } [[5, 6], [], [7]]).file.out)
        = ([(some [5, 6], 2, none), (some [], 0, none), (some [7], 1, none),
            (none, 0, some Error.EOF)], Reader.ofBytes []) :=
  ⟨by decide, by decide,
   (C16_frames_concatenate [[5, 6], [], [7]] (by decide)).2⟩

/-- C17: `WriteBorshSlice` has no size check.  For every `buf`, on a fault-free sink it writes
the little-endian header for `len buf mod 2 ^ 32`, then all `len buf` bytes of `buf`, and
returns `len buf + 4` without error; on any sink an error it returns is an error of one of the
two sink writes.  `ReadBorshSlice` on the bytes written returns the first
`len buf mod 2 ^ 32` bytes of `buf` as the frame, which for `len buf ≥ 2 ^ 32` is a proper
part of `buf`, and leaves the other bytes unread. -/
theorem C17_oversized_length_wraps (out buf : List Byte) :
    BorshFile.WriteBorshSlice { file := { out := out, fault := none } } buf
      = ((buf.length + 4, none),
         { file := { out := out ++ (ByteOrder.LittleEndian.PutUint32 (buf.length % 2 ^ 32)
                                      ++ buf),
                     fault := none } })
    ∧ (∀ (bf : BorshFile) (e : Error), (bf.WriteBorshSlice buf).1.2 = some e →
        (bf.file.Write (ByteOrder.LittleEndian.PutUint32 (buf.length % 2 ^ 32))).1.2 = some e
        ∨ ((bf.file.Write (ByteOrder.LittleEndian.PutUint32 (buf.length % 2 ^ 32))).2.Write
            buf).1.2 = some e)
    ∧ ReadBorshSlice (Reader.ofBytes
          ((BorshFile.WriteBorshSlice { file := { out := out, fault := none } }
            buf).2.file.out.drop out.length))
        = ((some (buf.take (buf.length % 2 ^ 32)), buf.length % 2 ^ 32, none),
           Reader.ofBytes (buf.drop (buf.length % 2 ^ 32)))
    ∧ (2 ^ 32 ≤ buf.length → (buf.take (buf.length % 2 ^ 32)).length < buf.length) := by
  have hmod : buf.length % 2 ^ 32 < 2 ^ 32 := Nat.mod_lt _ (Nat.two_pow_pos 32)
  have hle : buf.length % 2 ^ 32 ≤ buf.length := Nat.mod_le _ _
  have huu : uint32 (buf.length % 2 ^ 32) = buf.length % 2 ^ 32 := Nat.mod_eq_of_lt hmod
  refine ⟨?_, ?_, ?_, ?_⟩
  · rw [WriteBorshSlice_ok, List.append_assoc]; rfl
  · intro bf e he
    change (bf.file.Write (ByteOrder.LittleEndian.PutUint32 (uint32 buf.length))).1.2 = some e
        ∨ ((bf.file.Write (ByteOrder.LittleEndian.PutUint32 (uint32 buf.length))).2.Write
            buf).1.2 = some e
    cases hh : (bf.file.Write (ByteOrder.LittleEndian.PutUint32 (uint32 buf.length))).1.2 with
    | some e1 =>
      rw [WriteBorshSlice_header_err bf buf e1 hh] at he
      exact Or.inl he
    | none =>
      cases hc : ((bf.file.Write
          (ByteOrder.LittleEndian.PutUint32 (uint32 buf.length))).2.Write buf).1.2 with
      | some e1 =>
        rw [WriteBorshSlice_content_err bf buf e1 hh hc] at he
        exact Or.inr he
      | none =>
        rw [WriteBorshSlice_success bf buf hh hc] at he
        simp at he
  · rw [WriteBorshSlice_ok]
    simp only [Reader.ofBytes, List.append_assoc, List.drop_left]
    change ReadBorshSlice
      { data := ByteOrder.LittleEndian.PutUint32 (buf.length % 2 ^ 32) ++ buf,
        tail := Error.EOF } = _
    rw [ReadBorshSlice_frame (buf.length % 2 ^ 32) buf _ (by rw [huu]; exact hle), huu]
  · intro hbig
    rw [List.length_take]
    omega

/-- C17, at a payload of `2 ^ 32 + 2` bytes: the header declares two bytes and the frame read
back is the first two bytes of the payload. -/
theorem C17_oversized_length_wraps_witness :
    ReadBorshSlice (Reader.ofBytes
        ((BorshFile.WriteBorshSlice { file := { out := [], fault := none } }
          (List.replicate (2 ^ 32 + 2) (7 : Byte))).2.file.out.drop ([] : List Byte).length))
      = ((some [7, 7], 2, none), Reader.ofBytes (List.replicate (2 ^ 32) (7 : Byte))) := by
  have h := (C17_oversized_length_wraps [] (List.replicate (2 ^ 32 + 2) (7 : Byte))).2.2.1
  have hm : (2 ^ 32 + 2) % 2 ^ 32 = 2 := by norm_num
  rw [List.length_replicate, hm, List.take_replicate, List.drop_replicate] at h
  rw [h]
  have h1 : min 2 (2 ^ 32 + 2) = 2 := by norm_num
  have h2 : 2 ^ 32 + 2 - 2 = 2 ^ 32 := by norm_num
  rw [h1, h2]
  rfl

/-! ## The defensive length checks -/

theorem ReadFull_contract (r : Reader) (len : Nat) (h : (ReadFull r len).1.2.2 = none) :
    (ReadFull r len).1.1 = len := by
  unfold ReadFull at h ⊢
  by_cases hl : len ≤ r.data.length
  · simp [hl]
  · simp [hl] at h

theorem ReadFull_tail (r : Reader) (len : Nat) : (ReadFull r len).2.tail = r.tail := by
  unfold ReadFull
  by_cases hl : len ≤ r.data.length <;> simp [hl]

theorem ReadFull_err (r : Reader) (len : Nat) (e : Error)
    (h : (ReadFull r len).1.2.2 = some e) : e = Error.ErrUnexpectedEOF ∨ e = r.tail := by
  unfold ReadFull at h
  by_cases hl : len ≤ r.data.length
  · simp [hl] at h
  · simp only [hl, if_false, Option.some.injEq] at h
    by_cases hc : 0 < r.data.length ∧ r.tail = Error.EOF
    · rw [if_pos hc] at h; exact Or.inl h.symm
    · rw [if_neg hc] at h; exact Or.inr h.symm

theorem ReadUint32_eq_With (r : Reader) (o : ByteOrder) :
    ReadUint32 r o = ReadUint32With ReadFull r o := rfl

theorem ReadBorshSlice_eq_With (r : Reader) :
    ReadBorshSlice r = ReadBorshSliceWith ReadFull r := by
  unfold ReadBorshSlice ReadBorshSliceWith ReadUint32LE
  rw [ReadUint32_eq_With]
  rcases ReadUint32With ReadFull r ByteOrder.LittleEndian with ⟨⟨n, err⟩, r1⟩
  cases err <;> rfl

theorem ReadUint32With_of_err {σ : Type}
    (readFull : σ → Nat → (Nat × List Byte × Option Error) × σ) (s s1 : σ) (o : ByteOrder)
    (n : Nat) (buf : List Byte) (e : Error) (h : readFull s 4 = ((n, buf, some e), s1)) :
    ReadUint32With readFull s o = ((0, some e), s1) := by
  simp only [ReadUint32With, h]

theorem ReadUint32With_of_ok {σ : Type}
    (readFull : σ → Nat → (Nat × List Byte × Option Error) × σ)
    (hcontract : ∀ s len, (readFull s len).1.2.2 = none → (readFull s len).1.1 = len)
    (s s1 : σ) (o : ByteOrder) (n : Nat) (buf : List Byte)
    (h : readFull s 4 = ((n, buf, none), s1)) :
    ReadUint32With readFull s o = ((o.Uint32 buf, none), s1) := by
  have hn : n = 4 := by
    have := hcontract s 4 (by rw [h])
    rw [h] at this
    exact this
  subst hn
  simp only [ReadUint32With, h]
  simp

theorem ReadUint32With_error {σ : Type}
    (readFull : σ → Nat → (Nat × List Byte × Option Error) × σ)
    (hcontract : ∀ s len, (readFull s len).1.2.2 = none → (readFull s len).1.1 = len)
    (s : σ) (o : ByteOrder) :
    (ReadUint32With readFull s o).1.2 = (readFull s 4).1.2.2 := by
  rcases h : readFull s 4 with ⟨⟨n, buf, err⟩, s1⟩
  cases err with
  | some e => rw [ReadUint32With_of_err readFull s s1 o n buf e h]
  | none => rw [ReadUint32With_of_ok readFull hcontract s s1 o n buf h]

theorem ReadBorshSliceWith_error {σ : Type}
    (readFull : σ → Nat → (Nat × List Byte × Option Error) × σ)
    (hcontract : ∀ s len, (readFull s len).1.2.2 = none → (readFull s len).1.1 = len)
    (s : σ) :
    (ReadBorshSliceWith readFull s).1.2.2
      = (match readFull s 4 with
         | ((_, _, some e), _) => some e
         | ((_, buf, none), s1) =>
           (readFull s1 (ByteOrder.LittleEndian.Uint32 buf)).1.2.2) := by
  rcases h : readFull s 4 with ⟨⟨n, buf, err⟩, s1⟩
  cases err with
  | some e =>
    simp only [ReadBorshSliceWith, ReadUint32With_of_err readFull s s1 _ n buf e h]
  | none =>
    simp only [ReadBorshSliceWith, ReadUint32With_of_ok readFull hcontract s s1 _ n buf h]
    rcases h2 : readFull s1 (ByteOrder.LittleEndian.Uint32 buf) with ⟨⟨m, cb, err2⟩, s2⟩
    cases err2 with
    | some e => simp
    | none =>
      have hm := hcontract s1 (ByteOrder.LittleEndian.Uint32 buf) (by rw [h2])
      rw [h2] at hm
      simp only at hm
      subst hm
      simp

theorem ReadUint32_err_source (r : Reader) (o : ByteOrder) (e : Error)
    (h : (ReadUint32 r o).1.2 = some e) : e = Error.ErrUnexpectedEOF ∨ e = r.tail := by
  rw [ReadUint32_eq_With, ReadUint32With_error ReadFull ReadFull_contract] at h
  exact ReadFull_err r 4 e h

theorem ReadBorshSlice_err_source (r : Reader) (e : Error)
    (h : (ReadBorshSlice r).1.2.2 = some e) : e = Error.ErrUnexpectedEOF ∨ e = r.tail := by
  rw [ReadBorshSlice_eq_With, ReadBorshSliceWith_error ReadFull ReadFull_contract] at h
  rcases h4 : ReadFull r 4 with ⟨⟨n, buf, err⟩, r1⟩
  rw [h4] at h
  cases err with
  | some e1 =>
    simp only [Option.some.injEq] at h
    subst h
    exact ReadFull_err r 4 e1 (by rw [h4])
  | none =>
    simp only at h
    have ht : r1.tail = r.tail := by
      have := ReadFull_tail r 4
      rw [h4] at this
      exact this
    rw [← ht]
    exact ReadFull_err r1 _ e h

/-- C18: let `readFull` be any `io.ReadFull` that obeys its contract, returning a nil error
only with the whole buffer filled.  Then the error `ReadUint32` returns is in every case the
error `readFull` returned for the four header bytes, and the error `ReadBorshSlice` returns is
the error `readFull` returned for the header or, after a header was read, for the content: the
branches `n != 4` and `readLength != int(contentLength)` are never taken.  The byte-stream
sources obey the contract, and on every such source whose own error is not one of the two
`fmt.Errorf` values neither function ever returns its `expected ... bytes` error. -/
theorem C18_length_checks_unreachable {σ : Type}
    (readFull : σ → Nat → (Nat × List Byte × Option Error) × σ)
    (hcontract : ∀ s len, (readFull s len).1.2.2 = none → (readFull s len).1.1 = len)
    (s : σ) (o : ByteOrder) :
    (ReadUint32With readFull s o).1.2 = (readFull s 4).1.2.2
    ∧ (ReadBorshSliceWith readFull s).1.2.2
        = (match readFull s 4 with
           | ((_, _, some e), _) => some e
           | ((_, buf, none), s1) =>
             (readFull s1 (ByteOrder.LittleEndian.Uint32 buf)).1.2.2)
    ∧ (∀ (r : Reader) (len : Nat),
        (ReadFull r len).1.2.2 = none → (ReadFull r len).1.1 = len)
    ∧ (∀ r : Reader, ReadUint32 r o = ReadUint32With ReadFull r o
        ∧ ReadBorshSlice r = ReadBorshSliceWith ReadFull r)
    ∧ (∀ r : Reader, (∀ n, r.tail ≠ Error.Expected4 n) →
        (∀ a b, r.tail ≠ Error.ExpectedBytes a b) →
        (∀ n, (ReadUint32 r o).1.2 ≠ some (Error.Expected4 n))
        ∧ (∀ n, (ReadBorshSlice r).1.2.2 ≠ some (Error.Expected4 n))
        ∧ (∀ a b, (ReadBorshSlice r).1.2.2 ≠ some (Error.ExpectedBytes a b))) := by
  refine ⟨ReadUint32With_error readFull hcontract s o,
    ReadBorshSliceWith_error readFull hcontract s, ReadFull_contract,
    fun r => ⟨ReadUint32_eq_With r o, ReadBorshSlice_eq_With r⟩, ?_⟩
  intro r h4 hb
  refine ⟨fun n h => ?_, fun n h => ?_, fun a b h => ?_⟩
  · rcases ReadUint32_err_source r o _ h with h1 | h1
    · exact Error.noConfusion h1
    · exact h4 n h1.symm
  · rcases ReadBorshSlice_err_source r _ h with h1 | h1
    · exact Error.noConfusion h1
    · exact h4 n h1.symm
  · rcases ReadBorshSlice_err_source r _ h with h1 | h1
    · exact Error.noConfusion h1
    · exact hb a b h1.symm

/-- C18, at the byte-stream `io.ReadFull` and a source holding a header for three bytes
followed by two: the error returned is the `io.ErrUnexpectedEOF` of `io.ReadFull`. -/
theorem C18_length_checks_unreachable_witness :
    (ReadBorshSliceWith ReadFull (Reader.ofBytes [3, 0, 0, 0, 7, 8])).1.2.2
      = some Error.ErrUnexpectedEOF
    ∧ (ReadUint32With ReadFull (Reader.ofBytes [3, 0, 0, 0, 7, 8]) ByteOrder.LittleEndian).1.2
      = (ReadFull (Reader.ofBytes [3, 0, 0, 0, 7, 8]) 4).1.2.2 :=
  ⟨by decide,
   (C18_length_checks_unreachable ReadFull ReadFull_contract (Reader.ofBytes [3, 0, 0, 0, 7, 8])
     ByteOrder.LittleEndian).1⟩

end Borshfile
